import Mathlib

/-!
Verification of the `jointly` sensor-synchronization library.

The development shallowly embeds the Python sources (`jointly/helpers.py`,
`jointly/shake_extractor.py`, `jointly/synchronizer.py`).  Conventions of the
embedding:

* timestamps and durations are rationals measured in seconds
  (pandas stores nanosecond integers; those embed into `ℚ` exactly);
* a floating-point NaN is represented by `none : Option ℚ`; numpy comparison
  semantics (every comparison involving NaN is false) are modelled explicitly;
* Python exceptions are modelled with `Except PyErr`;
* dictionaries with statically known keys become structures whose fields are
  `Option`-valued when the key may be absent.
-/

namespace Jointly

/-- Python exceptions that the embedded code can raise.  `shakeMissing` carries
the label from `ShakeExtractor._check_shakes_not_empty` / `verify_segments`,
`badWindow` carries the name of the offending column. -/
inductive PyErr where
  | keyError
  | valueError
  | typeError
  | indexError
  | attributeError
  | zeroDivisionError
  | shakeMissing (label : String)
  | badWindow (column : String)
  | startEqualsEnd
  deriving Repr, DecidableEq

deriving instance DecidableEq for Except

/-- Dictionary lookup: an absent key raises `KeyError`. -/
def dictGet {α : Type} : Option α → Except PyErr α
  | some a => .ok a
  | none => .error .keyError

/-- Comparison `a < b` with numpy NaN semantics: false if either side is NaN. -/
def optLt : Option ℚ → Option ℚ → Bool
  | some a, some b => decide (a < b)
  | _, _ => false

/-- Comparison `a == b` with numpy NaN semantics: `NaN == NaN` is false. -/
def optEq : Option ℚ → Option ℚ → Bool
  | some a, some b => decide (a = b)
  | _, _ => false

/-- Comparison `a ≤ b` with numpy NaN semantics. -/
def optLe : Option ℚ → Option ℚ → Bool
  | some a, some b => decide (a ≤ b)
  | _, _ => false

/-- Addition propagating NaN. -/
def optAdd : Option ℚ → Option ℚ → Option ℚ
  | some a, some b => some (a + b)
  | _, _ => none

/-- Multiplication propagating NaN.  (numpy's `0 * NaN` is NaN as well.) -/
def optMul : Option ℚ → Option ℚ → Option ℚ
  | some a, some b => some (a * b)
  | _, _ => none

/-!  ## `helpers.normalize`

Embeds `jointly/helpers.py` lines 18-22:

    def normalize(x):
        xn = x - np.mean(x)
        xn = xn / np.max(np.abs(xn))
        return xn

For an empty input `np.max` of an empty array raises `ValueError`.  When the
centered column is uniformly zero, numpy's `0 / 0` produces NaN values with a
warning, and the function returns them; no exception is raised. -/

/-- Shallow embedding of `helpers.normalize`.  The result values are
`Option ℚ`, `none` standing for NaN. -/
def normalize (x : List ℚ) : Except PyErr (List (Option ℚ)) :=
  match x with
  | [] => .error .valueError
  | _ =>
    let m := x.sum / (x.length : ℚ)
    let xn := x.map (fun v => v - m)
    let M := xn.foldl (fun acc v => max acc |v|) 0
    if M = 0 then .ok (xn.map fun _ => (none : Option ℚ))
    else .ok (xn.map fun v => some (v / M))

/-!  ## `helpers.get_stretch_factor` (= `Synchronizer._get_stretch_factor`)

Embeds `jointly/helpers.py` lines 87-99 and the orchestrator wrapper at
`jointly/synchronizer.py` lines 281-288. -/

/-- One synchronization point; the dictionary keys `start` / `end` may be
absent (`abstract_extractor._init_segments` creates empty dictionaries). -/
structure SyncPoint where
  start : Option ℚ
  stop : Option ℚ
  deriving Repr, DecidableEq

/-- A `SynchronizationPair` dictionary; the keys `first` / `second` may be
absent from a malformed pairs structure. -/
structure SynchronizationPair where
  first : Option SyncPoint
  second : Option SyncPoint
  deriving Repr, DecidableEq

/-- A `SyncPairTimeshift` dictionary with possibly-absent keys. -/
structure SyncPairTimeshift where
  first : Option ℚ
  second : Option ℚ
  deriving Repr, DecidableEq

/-- Shallow embedding of `helpers.get_stretch_factor`.  Dictionary accesses
happen in Python's left-to-right order; dividing a zero `Timedelta` by a zero
`Timedelta` raises `ZeroDivisionError` (integer nanosecond division). -/
def get_stretch_factor (segments : SynchronizationPair)
    (timeshifts : SyncPairTimeshift) : Except PyErr ℚ := do
  let s2 ← dictGet segments.second
  let s2start ← dictGet s2.start
  let s1 ← dictGet segments.first
  let s1start ← dictGet s1.start
  let oldLength := s2start - s1start
  let t2 ← dictGet timeshifts.second
  let t1 ← dictGet timeshifts.first
  let newLength := oldLength + t2 - t1
  if oldLength = 0 then .error .zeroDivisionError
  else .ok (newLength / oldLength)

/-- Embedding of the stretch-factor computation inside
`Synchronizer._calculate_stretch_factors` (lines 281-288): the
`ZeroDivisionError` is converted into `StartEqualsEndError`. -/
def calcStretchFactorStep (segments : SynchronizationPair)
    (timeshifts : SyncPairTimeshift) : Except PyErr ℚ :=
  match get_stretch_factor segments timeshifts with
  | .error .zeroDivisionError => .error .startEqualsEnd
  | r => r

/-!  ## Frames and pandas index primitives

A wide frame is an ordered list of named columns over one shared timestamp
index; column values are `Option ℚ` so that the NaN cells produced by outer
joins and edge-resampling are representable. -/

/-- A pandas `DataFrame` with a shared (datetime) index. -/
structure Frame where
  idx : List ℚ
  cols : List (String × List (Option ℚ))
  deriving Repr, DecidableEq

/-- Column lookup, `signals[col]`; a missing column raises `KeyError`. -/
def Frame.col (f : Frame) (name : String) : Except PyErr (List (Option ℚ)) :=
  dictGet (f.cols.lookup name)

/-- Position of the last index entry `≤ key` (pandas `method="pad"`), `none`
standing for the indexer value `-1`.  pandas resolves this by binary search on
a monotonically increasing index; on such an index it equals the length of the
longest prefix of entries `≤ key`, minus one. -/
def padIndexer (idx : List ℚ) (key : ℚ) : Option ℕ :=
  let k := (idx.takeWhile (fun t => decide (t ≤ key))).length
  if k = 0 then none else some (k - 1)

/-- Position of the first index entry `≥ key` (pandas `method="backfill"`),
`none` standing for the indexer value `-1`. -/
def backfillIndexer (idx : List ℚ) (key : ℚ) : Option ℕ :=
  let k := (idx.takeWhile (fun t => decide (t < key))).length
  if k = idx.length then none else some k

/-- Shallow embedding of pandas `Index.get_loc(key, method="nearest")` for a
monotonically increasing index (`pandas.core.indexes.base._get_nearest_indexer`):
take the pad and backfill positions, compare absolute distances, and pick the
pad position only when its distance is strictly smaller — so a tie selects the
backfill (later) position.  A `-1` pad indexer makes numpy read the distance at
position `-1`, i.e. at the last element, before the comparison.  `none` means
the lookup fails with `KeyError` (empty index). -/
def getLocNearest (idx : List ℚ) (key : ℚ) : Option ℕ :=
  match backfillIndexer idx key with
  | none => padIndexer idx key
  | some r =>
    let lpos := match padIndexer idx key with
      | some l => l
      | none => idx.length - 1
    let ld := |idx.getD lpos 0 - key|
    let rd := |idx.getD r 0 - key|
    if ld < rd then padIndexer idx key else some r

/-- Python positional indexing `index[pos]` with negative positions wrapping
around to the end; out of range is `none` (`IndexError`). -/
def pyIndex (idx : List ℚ) (pos : ℤ) : Option ℚ :=
  if 0 ≤ pos then idx.get? pos.toNat
  else
    let p := (idx.length : ℤ) + pos
    if 0 ≤ p then idx.get? p.toNat else none

/-- Tail of `np.argmax`: walk the list keeping the current best value and its
position, replacing it only on a strictly larger value (`optLt best x`), which
is exactly numpy's behaviour including its NaN semantics. -/
def npArgmaxGo : List (Option ℚ) → Option ℚ → ℕ → ℕ → ℕ
  | [], _, best, _ => best
  | x :: xs, bv, best, i =>
    if optLt bv x then npArgmaxGo xs x i (i + 1) else npArgmaxGo xs bv best (i + 1)

/-- Shallow embedding of `np.argmax`; numpy raises `ValueError` on an empty
array. -/
def npArgmax : List (Option ℚ) → Except PyErr ℕ
  | [] => .error .valueError
  | x :: xs => .ok (npArgmaxGo xs x 0 1)

/-- Shallow embedding of `scipy.signal.correlate(a, v)` in its default `full`
mode: output entry `k` is the sum of products `a[j] * v[j + len(v) - 1 - k]`
over the overlap.  NaN values propagate through the sum. -/
def correlateFull (a v : List (Option ℚ)) : List (Option ℚ) :=
  (List.range (a.length + v.length - 1)).map fun k =>
    (List.range a.length).foldl
      (fun acc (j : ℕ) =>
        let vi : ℤ := (j : ℤ) + (v.length : ℤ) - 1 - (k : ℤ)
        if 0 ≤ vi ∧ vi < (v.length : ℤ) then
          optAdd acc (optMul (a.getD j none) (v.getD vi.toNat none))
        else acc)
      (some 0)

/-!  ## Segments dictionaries and `helpers.get_timeshift_pair`

`get_timeshift_pair` in `helpers.py` (lines 127-204) and
`Synchronizer._get_timeshift_pair` (lines 174-253) are character-for-character
identical revisions of the same function; the embedding below covers both.
The plotting blocks guarded by `logger.isEnabledFor` do not contribute to the
returned value and are omitted. -/

/-- The two segment names used throughout the pipeline. -/
inductive SegName where
  | first
  | second
  deriving Repr, DecidableEq

/-- Printable name of a segment, as used in error messages. -/
def SegName.str : SegName → String
  | .first => "first"
  | .second => "second"

/-- Access `pair[segment]`. -/
def SynchronizationPair.seg (p : SynchronizationPair) : SegName → Option SyncPoint
  | .first => p.first
  | .second => p.second

/-- A `SyncPairs` dictionary: source name to synchronization pair. -/
abbrev SyncPairs := List (String × SynchronizationPair)

/-- Label slice `series[start:stop]` of a column, inclusive on both ends
(pandas label slicing on a monotonic index). -/
def sliceLabels (idx : List ℚ) (vals : List (Option ℚ)) (a b : ℚ) :
    List (Option ℚ) :=
  ((idx.zip vals).filter fun p => decide (a ≤ p.1) && decide (p.1 ≤ b)).map (·.2)

/-- Shallow embedding of `helpers.get_segment_data`: read the segment's start
and end timestamps and slice the column between them. -/
def get_segment_data (f : Frame) (segments : SyncPairs) (col : String)
    (seg : SegName) : Except PyErr (ℚ × ℚ × List (Option ℚ)) := do
  let pair ← dictGet (segments.lookup col)
  let pt ← dictGet (pair.seg seg)
  let start ← dictGet pt.start
  let stop ← dictGet pt.stop
  let vals ← f.col col
  .ok (start, stop, sliceLabels f.idx vals start stop)

/-- One `part` check of `helpers.verify_segments`: Python evaluates
`segments[col][segment][part]` and any missing level raises `KeyError`,
converted into `ShakeMissingException` naming segment, column and part. -/
def verifyPart (segments : SyncPairs) (col : String) (seg : SegName)
    (part : String) (get : SyncPoint → Option ℚ) : Except PyErr Unit :=
  match (segments.lookup col).bind fun pr => (pr.seg seg).bind get with
  | some _ => .ok ()
  | none => .error (.shakeMissing
      ("No " ++ seg.str ++ " shake detected for " ++ col ++ ", missing the " ++ part))

/-- Shallow embedding of `helpers.verify_segments`: iterate columns, segment
names, and the parts `start` / `end` in order. -/
def verify_segments (columns : List String) (segments : SyncPairs)
    (segment_names : List SegName) : Except PyErr Unit :=
  columns.forM fun col =>
    segment_names.forM fun seg => do
      let _ ← verifyPart segments col seg "start" SyncPoint.start
      let _ ← verifyPart segments col seg "end" SyncPoint.stop
      pure ()

/-- Shallow embedding of the per-segment body of the loop in
`helpers.get_timeshift_pair`: slice both columns, cross-correlate, turn
`argmax - len(sig_data) + 1` into a number of samples, locate the reference
start with pandas' nearest lookup, step by that many samples with Python's
(possibly wrapping) positional indexing, and subtract the target's own start. -/
def getTimeshiftSegment (f : Frame) (ref_col sig_col : String)
    (segments : SyncPairs) (seg : SegName) : Except PyErr ℚ := do
  let (ref_start, _refStop, ref_data) ← get_segment_data f segments ref_col seg
  let (sig_start, _sigStop, sig_data) ← get_segment_data f segments sig_col seg
  let cross_corr := correlateFull ref_data sig_data
  let am ← npArgmax cross_corr
  let shift_in_samples : ℤ := (am : ℤ) - (sig_data.length : ℤ) + 1
  let loc ← dictGet (getLocNearest f.idx ref_start)
  let max_corr_ts ← match pyIndex f.idx ((loc : ℤ) + shift_in_samples) with
    | some t => Except.ok t
    | none => Except.error .indexError
  .ok (max_corr_ts - sig_start)

/-- Shallow embedding of `helpers.get_timeshift_pair` (also
`Synchronizer._get_timeshift_pair`): verify the segments of both columns, then
compute the timeshift of the `first` and `second` segment. -/
def get_timeshift_pair (f : Frame) (ref_col sig_col : String)
    (segments : SyncPairs) : Except PyErr (ℚ × ℚ) := do
  let _ ← verify_segments [ref_col, sig_col] segments [SegName.first, SegName.second]
  let t1 ← getTimeshiftSegment f ref_col sig_col segments .first
  let t2 ← getTimeshiftSegment f ref_col sig_col segments .second
  .ok (t1, t2)

/-!  ## Specification-side lag-to-timestamp conversion

The spec pins the conversion of the lag `k` into a timestamp: "stepping `k`
samples from the reference segment's start along the frame's fixed grid, using
nearest-index lookup with ties broken toward the earlier timestamp". -/

/-- Modelled from the spec: nearest-index lookup over the grid with ties
broken toward the earlier timestamp — scan all positions keeping the first
position of minimal absolute distance. -/
def specNearestTieEarlier (idx : List ℚ) (key : ℚ) : Option ℕ :=
  (List.range idx.length).foldl
    (fun acc i =>
      match acc with
      | none => some i
      | some b => if |idx.getD i 0 - key| < |idx.getD b 0 - key| then some i else some b)
    none

/-- Nearest-index lookup over the grid with ties broken toward the later
timestamp — scan all positions keeping the last position of minimal absolute
distance.  This is the tie-breaking that pandas actually implements for a
monotonically increasing index. -/
def specNearestTieLater (idx : List ℚ) (key : ℚ) : Option ℕ :=
  (List.range idx.length).foldl
    (fun acc i =>
      match acc with
      | none => some i
      | some b => if |idx.getD i 0 - key| ≤ |idx.getD b 0 - key| then some i else some b)
    none

/-- Modelled from the spec, parametrized by the nearest-index lookup: extract
both segment slices, compute the full cross-correlation, set
`k = argmax(correlation) - (len(target_segment) - 1)`, convert `k` to a
timestamp by stepping `k` samples along the frame's fixed grid from the
nearest-index lookup of the reference segment's start (no wrap-around: a step
leaving the grid is undefined), and return `(converted timestamp) - (target
segment's own start)`. -/
def specTimeshiftSegmentWith (nearest : List ℚ → ℚ → Option ℕ) (f : Frame)
    (ref_col sig_col : String) (segments : SyncPairs) (seg : SegName) :
    Except PyErr ℚ := do
  let (ref_start, _refStop, ref_data) ← get_segment_data f segments ref_col seg
  let (sig_start, _sigStop, sig_data) ← get_segment_data f segments sig_col seg
  let am ← npArgmax (correlateFull ref_data sig_data)
  let k : ℤ := (am : ℤ) - ((sig_data.length : ℤ) - 1)
  let p ← dictGet (nearest f.idx ref_start)
  let converted ← match (if 0 ≤ (p : ℤ) + k then f.idx.get? ((p : ℤ) + k).toNat
      else none) with
    | some t => Except.ok t
    | none => Except.error .indexError
  .ok (converted - sig_start)

/-- The spec-side description of both segments' timeshifts, parametrized by
the nearest-index lookup. -/
def specTimeshiftPairWith (nearest : List ℚ → ℚ → Option ℕ) (f : Frame)
    (ref_col sig_col : String) (segments : SyncPairs) :
    Except PyErr (ℚ × ℚ) := do
  let t1 ← specTimeshiftSegmentWith nearest f ref_col sig_col segments .first
  let t2 ← specTimeshiftSegmentWith nearest f ref_col sig_col segments .second
  .ok (t1, t2)

/-!  ## `shake_extractor.ShakeExtractor`

Embeds `jointly/shake_extractor.py`.  The extractor's mutable configuration
properties become one structure; `distance` keeps its raw value in
milliseconds exactly as in the source (`distance = 1500`), converted by
`pd.Timedelta(milliseconds=...)` — i.e. divided by 1000 — where it is used. -/

/-- Configuration of `ShakeExtractor` (window lengths and `time_buffer` in
seconds, `distance` in milliseconds). -/
structure ShakeExtractorConfig where
  start_window_length : ℚ
  end_window_length : ℚ
  threshold : ℚ
  distance : ℚ
  min_length : ℕ
  time_buffer : ℚ
  deriving Repr, DecidableEq

/-- Inner plateau scan of scipy's `_local_maxima_1d`: advance `i_ahead` while
it is left of `i_max` and the value equals the candidate peak value. -/
def plateauEnd (x : List (Option ℚ)) (iMax : ℕ) (v : Option ℚ) :
    ℕ → ℕ → ℕ
  | 0, i => i
  | fuel + 1, i =>
    if i < iMax ∧ optEq (x.getD i none) v then plateauEnd x iMax v fuel (i + 1)
    else i

/-- Main loop of scipy's `_local_maxima_1d`, with explicit fuel (the position
strictly increases on every iteration, so `x.length` steps suffice): a
position is a peak when its value strictly exceeds its left neighbour and the
first differing value to its right (plateaus report their midpoint). -/
def localMaximaGo (x : List (Option ℚ)) (iMax : ℕ) : ℕ → ℕ → List ℕ
  | 0, _ => []
  | fuel + 1, i =>
    if i < iMax then
      if optLt (x.getD (i - 1) none) (x.getD i none) then
        let iAhead := plateauEnd x iMax (x.getD i none) x.length (i + 1)
        if optLt (x.getD iAhead none) (x.getD i none) then
          (i + (iAhead - 1)) / 2 :: localMaximaGo x iMax fuel (iAhead + 1)
        else localMaximaGo x iMax fuel (i + 1)
      else localMaximaGo x iMax fuel (i + 1)
    else []

/-- Positions of all local maxima of a signal (scipy `_local_maxima_1d`). -/
def localMaxima (x : List (Option ℚ)) : List ℕ :=
  localMaximaGo x (x.length - 1) x.length 1

/-- Shallow embedding of `scipy.signal.find_peaks(x, height=h)`: local maxima
whose value is at least `h` (NaN values never qualify). -/
def findPeaks (x : List (Option ℚ)) (h : ℚ) : List ℕ :=
  (localMaxima x).filter fun p => optLe (some h) (x.getD p none)

/-- Timestamp of the sample at position `p` of the frame's index. -/
def peakTime (idx : List ℚ) (p : ℕ) : ℚ := idx.getD p 0

/-- Python `sequences[len(sequences) - 1].append(p)`. -/
def appendToLast (seqs : List (List ℕ)) (p : ℕ) : List (List ℕ) :=
  seqs.dropLast ++ [seqs.getLastD [] ++ [p]]

/-- Loop body of `ShakeExtractor._merge_peak_sequences`.  The source checks
`pos == 0` and otherwise reads `peaks[pos - 1]`; the fold carries that
previous peak instead.  A gap strictly larger than `distance` milliseconds
(`time_prev + pd.Timedelta(milliseconds=distance) < time`) starts a new
sequence, otherwise the peak is appended to the last sequence. -/
def mergeStep (distance : ℚ) (idx : List ℚ) (acc : List (List ℕ) × Option ℕ)
    (p : ℕ) : List (List ℕ) × Option ℕ :=
  match acc.2 with
  | none => (acc.1 ++ [[p]], some p)
  | some prev =>
    if peakTime idx prev + distance / 1000 < peakTime idx p then
      (acc.1 ++ [[p]], some p)
    else (appendToLast acc.1 p, some p)

/-- Shallow embedding of `ShakeExtractor._merge_peak_sequences`. -/
def mergePeakSequences (distance : ℚ) (idx : List ℚ) (peaks : List ℕ) :
    List (List ℕ) :=
  (peaks.foldl (mergeStep distance idx) ([], none)).1

/-- Structural recursion equivalent to the merge loop, used to reason about
it: `cur` is the sequence currently being extended (the last list of the
accumulator) and `prev` the previously processed peak (its last element). -/
def mergeAux (distance : ℚ) (idx : List ℚ) (prev : ℕ) (cur : List ℕ) :
    List ℕ → List (List ℕ)
  | [] => [cur]
  | p :: ps =>
    if peakTime idx prev + distance / 1000 < peakTime idx p then
      cur :: mergeAux distance idx p [p] ps
    else mergeAux distance idx p (cur ++ [p]) ps

/-- Shallow embedding of `ShakeExtractor._get_peak_sequences`: find peaks in
the start window (`truncate(after=start_window)`, a prefix of the sorted
index) and in the end window (`truncate(before=end_window)`, a suffix, whose
peak positions are offset by `index.get_loc(end_part.index[0])`), merge them
into sequences and drop sequences shorter than `min_length`.  An empty end
part makes `end_part.index[0]` raise `IndexError`. -/
def getPeakSequences (cfg : ShakeExtractorConfig) (f : Frame) (column : String)
    (start_window end_window : ℚ) : Except PyErr (List (List ℕ)) := do
  let vals ← f.col column
  let startLen := (f.idx.takeWhile fun t => decide (t ≤ start_window)).length
  let peaks_start := findPeaks (vals.take startLen) cfg.threshold
  let offset := (f.idx.takeWhile fun t => decide (t < end_window)).length
  let end_part := vals.drop offset
  let _ ← if end_part.length = 0 then Except.error PyErr.indexError
    else Except.ok ()
  let peaks_end := (findPeaks end_part cfg.threshold).map (· + offset)
  let peaks := peaks_start ++ peaks_end
  let sequences := mergePeakSequences cfg.distance f.idx peaks
  .ok (sequences.filter fun s => cfg.min_length ≤ s.length)

/-- Median of a list of rationals (numpy: midpoint of the sorted list, or the
mean of the two middle entries for even length). -/
def npMedianQ (l : List ℚ) : ℚ :=
  let s := l.insertionSort (· ≤ ·)
  if l.length % 2 = 1 then s.getD (l.length / 2) 0
  else (s.getD (l.length / 2 - 1) 0 + s.getD (l.length / 2) 0) / 2

/-- Shallow embedding of `np.median`: NaN on empty input, NaN as soon as a
NaN is present. -/
def npMedian (l : List (Option ℚ)) : Option ℚ :=
  if l.length = 0 then none
  else if l.any (·.isNone) then none
  else some (npMedianQ l.reduceOption)

/-- Shallow embedding of `np.mean` over possibly-NaN values. -/
def npMeanOpt (l : List (Option ℚ)) : Option ℚ :=
  if l.length = 0 then none
  else if l.any (·.isNone) then none
  else some (l.reduceOption.sum / (l.length : ℚ))

/-- Shallow embedding of `shake_extractor._get_shake_weight`:
`np.median(x) + np.mean(x)`. -/
def shakeWeight (l : List (Option ℚ)) : Option ℚ :=
  optAdd (npMedian l) (npMeanOpt l)

/-- Python `max(items, key=key)`: keep the first element, replacing it only
when a later key compares strictly greater (NaN keys never replace);
`none` for an empty list (`max()` raises `ValueError`). -/
def pyMaxByKey {α : Type} (key : α → Option ℚ) : List α → Option α
  | [] => none
  | x :: xs => some (xs.foldl (fun b a => if optLt (key b) (key a) then a else b) x)

/-- A detected shake sequence as `get_segments` materializes it: the list of
`(timestamp, value)` of its peaks. -/
abbrev Shake := List (ℚ × Option ℚ)

/-- Shallow embedding of `ShakeExtractor._choose_sequence`: take the sequence
of maximal shake weight, pad its first and last peak timestamp with
`time_buffer`, and snap both to the nearest existing index entry. -/
def chooseSequence (cfg : ShakeExtractorConfig) (idx : List ℚ)
    (shake_list : List Shake) : Except PyErr (ℚ × ℚ) := do
  let best ← match pyMaxByKey (fun s => shakeWeight (s.map (·.2))) shake_list with
    | some b => Except.ok b
    | none => Except.error .valueError
  let firstPeak ← match best.head? with
    | some x => Except.ok x
    | none => Except.error .indexError
  let lastPeak ← match best.getLast? with
    | some x => Except.ok x
    | none => Except.error .indexError
  let start_index ← dictGet (getLocNearest idx (firstPeak.1 - cfg.time_buffer))
  let end_index ← dictGet (getLocNearest idx (lastPeak.1 + cfg.time_buffer))
  .ok (idx.getD start_index 0, idx.getD end_index 0)

/-- Shallow embedding of `ShakeExtractor._check_shakes_not_empty`. -/
def checkShakesNotEmpty {α : Type} (shakes : List α) (label : String) :
    Except PyErr Unit :=
  if shakes.length ≤ 0 then
    .error (.shakeMissing ("No " ++ label ++ " shakes detected"))
  else .ok ()

/-- Timestamp of the first non-NaN sample (`Series.first_valid_index`). -/
def firstValidIndex (idx : List ℚ) (vals : List (Option ℚ)) : Option ℚ :=
  ((idx.zip vals).find? fun p => p.2.isSome).map (·.1)

/-- Timestamp of the last non-NaN sample (`Series.last_valid_index`). -/
def lastValidIndex (idx : List ℚ) (vals : List (Option ℚ)) : Option ℚ :=
  ((idx.zip vals).reverse.find? fun p => p.2.isSome).map (·.1)

/-- Body of the per-column loop of `ShakeExtractor.get_segments`: validate the
window lengths against the column's valid duration (subtracting two `None`
valid indexes raises `TypeError`), find and partition the peak sequences, and
choose the best start and end sequence.  The Boolean partition conditions read
the first (respectively last) peak of each sequence; merged sequences are
never empty, so the `(0, none)` default of `headD`/`getLastD` is unreachable. -/
def processColumn (cfg : ShakeExtractorConfig) (f : Frame) (column : String) :
    Except PyErr (SyncPoint × SyncPoint) := do
  let vals ← f.col column
  let lastTs ← match lastValidIndex f.idx vals with
    | some t => Except.ok t
    | none => Except.error .typeError
  let firstTs ← match firstValidIndex f.idx vals with
    | some t => Except.ok t
    | none => Except.error .typeError
  let duration := lastTs - firstTs
  if duration < cfg.start_window_length ∨ duration < cfg.end_window_length then
    .error (.badWindow column)
  else do
    let start_window := firstTs + cfg.start_window_length
    let end_window := lastTs - cfg.end_window_length
    let peak_sequences ← getPeakSequences cfg f column start_window end_window
    let seqVals : List Shake :=
      peak_sequences.map fun s => s.map fun p => (peakTime f.idx p, vals.getD p none)
    let start_shakes := seqVals.filter fun s => decide ((s.headD (0, none)).1 < start_window)
    let end_shakes := seqVals.filter fun s =>
      !decide ((s.headD (0, none)).1 < start_window)
        && decide (end_window < (s.getLastD (0, none)).1)
    let _ ← checkShakesNotEmpty start_shakes "start"
    let _ ← checkShakesNotEmpty end_shakes "end"
    let firstSeg ← chooseSequence cfg f.idx start_shakes
    let secondSeg ← chooseSequence cfg f.idx end_shakes
    .ok (⟨some firstSeg.1, some firstSeg.2⟩, ⟨some secondSeg.1, some secondSeg.2⟩)

/-- Per-column recursion of `ShakeExtractor.get_segments`: an exception at any
column aborts the whole extraction. -/
def getSegmentsGo (cfg : ShakeExtractorConfig) (f : Frame) :
    List String → Except PyErr SyncPairs
  | [] => .ok []
  | c :: rest => do
    let pair ← processColumn cfg f c
    let restSegs ← getSegmentsGo cfg f rest
    .ok ((c, ⟨some pair.1, some pair.2⟩) :: restSegs)

/-- Shallow embedding of `ShakeExtractor.get_segments`. -/
def get_segments (cfg : ShakeExtractorConfig) (f : Frame) :
    Except PyErr SyncPairs :=
  getSegmentsGo cfg f (f.cols.map (·.1))

/-!  ## `Synchronizer`: session construction (`__init__`, `_prepare_ref_signals`)

`Synchronizer.__init__` performs no explicit validation: it stores its
arguments, builds the joined normalized reference frame, and computes the
default sampling frequency.  Any construction failure is an incidental
exception from `_prepare_ref_signals`: `KeyError` for missing dictionary
keys or columns, or the pandas join's "columns overlap but no suffix
specified" `ValueError` when a source's `ref_column` equals the name of an
already-joined (renamed) earlier source.  The `extractor` argument (an
`issubclass` check) and `tags` play no role in the claims and are omitted. -/

/-- One entry of a `SourceDict`; the `data` / `ref_column` keys may be
absent. -/
structure SourceEntry where
  data : Option Frame
  ref_column : Option String
  deriving Repr, DecidableEq

/-- A `SourceDict`: source name to entry. -/
abbrev SourceDict := List (String × SourceEntry)

/-- Extract one source's reference channel:
`source["data"][source["ref_column"]].dropna()` as (timestamp, value) pairs,
together with the channel's name (the name the resulting pandas `Series`
carries into the join). -/
def sourceSignal (entry : SourceEntry) :
    Except PyErr (String × List (ℚ × ℚ)) := do
  let dat ← dictGet entry.data
  let rc ← dictGet entry.ref_column
  let colVals ← dat.col rc
  .ok (rc, (dat.idx.zip colVals).filterMap fun p => p.2.map fun v => (p.1, v))

/-- Sorted, deduplicated union of several timestamp lists — the index that the
iterated `join(..., how="outer")` of unique sorted indexes produces. -/
def unionIndex (ls : List (List ℚ)) : List ℚ :=
  ((ls.foldl (· ++ ·) []).insertionSort (· ≤ ·)).dedup

/-- Align a signal onto the union index; timestamps the signal does not cover
become NaN, exactly as in an outer join. -/
def reindexOnto (idxU : List ℚ) (sig : List (ℚ × ℚ)) : List (Option ℚ) :=
  idxU.map fun t => sig.lookup t

/-- `helpers.normalize` as applied column-wise to the joined frame: with a
pandas `Series` argument, `np.mean` / `np.max` skip NaN cells, so the
function is total — an all-NaN or empty column and a uniformly-zero centered
column all come back as NaN values (`x / 0` and `x / NaN`), never as an
exception. -/
def normalizeSeries (col : List (Option ℚ)) : List (Option ℚ) :=
  let xs := col.reduceOption
  if xs.length = 0 then col.map fun _ => none
  else
    let m := xs.sum / (xs.length : ℚ)
    let xn := col.map (Option.map fun v => v - m)
    let M := xn.reduceOption.foldl (fun acc v => max acc |v|) 0
    if M = 0 then col.map fun _ => none
    else xn.map (Option.map fun v => v / M)

/-- The source-collection loop of `Synchronizer._prepare_ref_signals`: an
exception at any source aborts construction.  `seen` is the column set of
the frame built so far — after each iteration's rename, exactly the names of
the earlier sources.  `DataFrame.join` raises "columns overlap but no suffix
specified" (`ValueError`) when the incoming series' name — the source's
`ref_column` — is already a column. -/
def collectSignals (seen : List String) :
    SourceDict → Except PyErr (List (String × List (ℚ × ℚ)))
  | [] => .ok []
  | s :: rest => do
    let (rc, sig) ← sourceSignal s.2
    let _ ← if seen.contains rc then Except.error PyErr.valueError
      else Except.ok ()
    let more ← collectSignals (seen ++ [s.1]) rest
    .ok ((s.1, sig) :: more)

/-- Shallow embedding of `Synchronizer._prepare_ref_signals`: collect each
source's reference channel, outer-join them one by one (each join rejecting
a channel name that collides with an earlier source's renamed column, then
renaming the new column to the source name), and normalize each column. -/
def prepare_ref_signals (sources : SourceDict) : Except PyErr Frame := do
  let sigs ← collectSignals [] sources
  let idxU := unionIndex (sigs.map fun s => s.2.map (·.1))
  .ok ⟨idxU, sigs.map fun s => (s.1, normalizeSeries (reindexOnto idxU s.2))⟩

/-- Shallow embedding of `Synchronizer._infer_freq`:
`1 / median(consecutive timestamp deltas)` of the column's valid samples.
`none` stands for a non-finite result (NaN from an empty delta list, infinity
from a zero median). -/
def infer_freq (idx : List ℚ) (vals : List (Option ℚ)) : Option ℚ :=
  let ts := ((idx.zip vals).filter (·.2.isSome)).map (·.1)
  let deltas := (ts.zip ts.tail).map fun p => p.2 - p.1
  if deltas.length = 0 then none
  else if npMedianQ deltas = 0 then none
  else some (1 / npMedianQ deltas)

/-- Shallow embedding of `Synchronizer.get_max_ref_frequency`: `np.amax` of
the per-column inferred frequencies.  `np.amax` on a pandas aggregation
result delegates to the object's own `.max()`, which returns NaN — it does
not raise — on an empty (column-less) frame, and NaN as soon as one
column's frequency is non-finite; `none` stands for that NaN. -/
def get_max_ref_frequency (f : Frame) : Option ℚ :=
  if f.cols.length = 0 then none
  else
    let freqs := f.cols.map fun c => infer_freq f.idx c.2
    if freqs.any (·.isNone) then none
    else some (freqs.reduceOption.foldl max (freqs.reduceOption.headD 0))

/-- The state a `Synchronizer` holds right after construction. -/
structure Synchronizer where
  sources : SourceDict
  ref_source_name : String
  ref_signals : Frame
  sampling_freq : Option ℚ
  deriving Repr, DecidableEq

/-- Shallow embedding of `Synchronizer.__init__`: store the sources and the
reference source name (the latter without any check), build the normalized
reference frame, and default the sampling frequency to the maximum inferred
reference frequency. -/
def Synchronizer.init (sources : SourceDict) (reference_source_name : String)
    (sampling_freq : Option ℚ) : Except PyErr Synchronizer := do
  let ref_signals ← prepare_ref_signals sources
  let freq := match sampling_freq with
    | some f => some f
    | none => get_max_ref_frequency ref_signals
  .ok ⟨sources, reference_source_name, ref_signals, freq⟩

/-!  ## `Synchronizer`: the applier (`get_synced_data`, `_stretch_signals`)

`helpers.stretch_signals` and `Synchronizer._stretch_signals` are identical
revisions; the embedding below covers both.  The tables are generic in the
row type: the applier never looks at the values, it only rewrites the
timestamp index. -/

/-- A time-indexed table with arbitrary row content. -/
structure DataTable (α : Type) where
  idx : List ℚ
  rows : List α
  deriving Repr, DecidableEq

/-- Minimum of a timestamp index (`DataFrame.index.min()`); `0` is junk for
the empty case, which no claim exercises. -/
def idxMin (l : List ℚ) : ℚ := l.foldl min (l.headD 0)

/-- Shallow embedding of `Synchronizer._stretch_signals` /
`helpers.stretch_signals`: replace every timestamp `t` by
`(t - start_time) * factor + start_time`; `set_index(..., verify_integrity=True)`
raises when the stretched index contains duplicates. -/
def stretch_signals {α : Type} (source : DataTable α) (factor : ℚ)
    (start_time : Option ℚ) : Except PyErr (DataTable α) :=
  let st := start_time.getD (idxMin source.idx)
  let newIdx := source.idx.map fun t => (t - st) * factor + st
  if newIdx.Nodup then .ok ⟨newIdx, source.rows⟩ else .error .valueError

/-- `data.shift(1, freq=timeshift)`: move every timestamp by `timeshift`. -/
def shiftIndex {α : Type} (t : DataTable α) (d : ℚ) : DataTable α :=
  ⟨t.idx.map fun x => x + d, t.rows⟩

/-- Per-source body of `Synchronizer.get_synced_data` (after
`get_sync_params` has populated the `stretch_factor` and `timeshift` keys):
stretch when the factor differs from 1, anchored at `start_time`, then shift
when a timeshift is set. -/
def applySyncParams {α : Type} (start_time : ℚ) (data : DataTable α)
    (stretch_factor : ℚ) (timeshift : Option ℚ) : Except PyErr (DataTable α) := do
  let d ← if stretch_factor ≠ 1 then stretch_signals data stretch_factor (some start_time)
    else pure data
  match timeshift with
  | some ts => pure (shiftIndex d ts)
  | none => pure d

/-- The anchor used by pass 1 (`_calculate_stretch_factors`, line 264):
`start_time = ref_signals.index.min()`. -/
def stretchAnchor (ref_signals : Frame) : ℚ := idxMin ref_signals.idx

/-- The anchor used by the applier (`get_synced_data`, line 375):
`start_time = self.ref_signals.index.min()`. -/
def applierAnchor (ref_signals : Frame) : ℚ := idxMin ref_signals.idx

/-- The loop of `Synchronizer.get_synced_data`, source by source. -/
def syncedDataGo {α : Type} (anchor : ℚ) :
    List (String × DataTable α × ℚ × Option ℚ) →
    Except PyErr (List (String × DataTable α))
  | [] => .ok []
  | s :: rest => do
    let d ← applySyncParams anchor s.2.1 s.2.2.1 s.2.2.2
    let more ← syncedDataGo anchor rest
    .ok ((s.1, d) :: more)

/-- Shallow embedding of the loop of `Synchronizer.get_synced_data` over the
per-source tables and their already-computed parameters. -/
def get_synced_data {α : Type} (ref_signals : Frame)
    (sources : List (String × DataTable α × ℚ × Option ℚ)) :
    Except PyErr (List (String × DataTable α)) :=
  syncedDataGo (applierAnchor ref_signals) sources

/-!  ## `Synchronizer`: parameter caching (`get_sync_params`)

The two passes (`_calculate_stretch_factors`, `_calculate_timeshifts`) are
arbitrary state transformers here: the caching logic of `get_sync_params` /
`_calculate_sync_params` does not depend on what they compute, only on the
presence of the `timeshift` key on the reference source. -/

/-- The per-source dictionary as far as the caching logic reads it: each of
the two parameter keys is either absent (`none`) or present with a value
(`some v`; the stored timeshift value itself is optional because the
reference source stores `None`). -/
structure SourceParamState where
  stretch_factor : Option ℚ
  timeshiftKey : Option (Option ℚ)
  deriving Repr, DecidableEq

/-- The mutable `self.sources` mapping as the caching logic sees it. -/
abbrev SyncState := List (String × SourceParamState)

/-- Replace the entry of one source (Python dictionary item assignment). -/
def updateSource (st : SyncState) (name : String)
    (f : SourceParamState → SourceParamState) : SyncState :=
  st.map fun e => if e.1 = name then (e.1, f e.2) else e

/-- The value `get_sync_params` returns: for each source the sub-dictionary
of the keys `timeshift` / `stretch_factor` that are present. -/
abbrev SyncParams := List (String × (Option (Option ℚ) × Option ℚ))

/-- Shallow embedding of the dictionary comprehension at the end of
`get_sync_params`. -/
def extractSyncParams (st : SyncState) : SyncParams :=
  st.map fun e => (e.1, (e.2.timeshiftKey, e.2.stretch_factor))

/-- Shallow embedding of `Synchronizer._calculate_sync_params`: set the
reference source's `timeshift` to `None` and its `stretch_factor` to 1
(raising `KeyError` when the reference source is absent), then run pass 1
(stretch factors) and pass 2 (timeshifts). -/
def calculateSyncParams (pass1 pass2 : SyncState → SyncState) (ref : String)
    (st : SyncState) : Except PyErr SyncState := do
  let _ ← dictGet (st.lookup ref)
  let st := updateSource st ref fun s => { s with timeshiftKey := some none }
  let st := updateSource st ref fun s => { s with stretch_factor := some 1 }
  .ok (pass2 (pass1 st))

/-- Shallow embedding of `Synchronizer.get_sync_params`: recompute when
`recalculate` is set or the reference source has no `timeshift` key yet
(Python's `or` short-circuits, so the reference lookup only happens when
`recalculate` is false).  The Boolean in the result records whether the
two passes ran, and the middle component is the returned parameter
mapping. -/
def get_sync_params (pass1 pass2 : SyncState → SyncState) (ref : String)
    (recalculate : Bool) (st : SyncState) :
    Except PyErr (SyncState × SyncParams × Bool) := do
  let needs ← if recalculate then pure true
    else do
      let refSrc ← dictGet (st.lookup ref)
      pure (!refSrc.timeshiftKey.isSome)
  if needs then do
    let st' ← calculateSyncParams pass1 pass2 ref st
    .ok (st', extractSyncParams st', true)
  else .ok (st, extractSyncParams st, false)

/-!  ## `Synchronizer.save_data`

The embedding returns the trace of externally visible steps (parameter
computation, data computation, files written) together with the exception, if
any, that interrupts the run; computing the trace of the successful branches
presumes the parameter/data computations themselves succeed, which is all the
claims about `save_data` need. -/

/-- Externally visible steps of `save_data`. -/
inductive SaveStep where
  | computeSyncParams
  | computeSyncedData
  | writeCsv (name : String)
  deriving Repr, DecidableEq

/-- A `ResultTableSpec`: output table name to (source name to column list). -/
abbrev ResultTableSpec := List (String × List (String × List String))

/-- Shallow embedding of `Synchronizer.save_data`.  The very first statement
evaluates `tables.keys()`, so a `None` argument raises `AttributeError`
before anything is computed or written. -/
def save_data (tables : Option ResultTableSpec) (save_total_table : Bool) :
    List SaveStep × Option PyErr :=
  match tables with
  | none => ([], some .attributeError)
  | some spec =>
    if (spec.lookup "SYNC").isSome then ([], some .valueError)
    else if save_total_table && (spec.lookup "TOTAL").isSome then
      ([], some .valueError)
    else
      ([.computeSyncParams, .computeSyncedData, .writeCsv "SYNC"]
          ++ spec.map (fun t => .writeCsv t.1)
          ++ if save_total_table then [.writeCsv "TOTAL"] else [],
        none)

/-!  ## Derived predicates used by the theorems -/

/-- Whether an `Except` computation succeeded. -/
def isOkE {ε α : Type} : Except ε α → Bool
  | .ok _ => true
  | .error _ => false

/-- Well-formedness of one `SourceDict` entry as `_prepare_ref_signals`
consumes it: the `data` and `ref_column` keys are present and the reference
column exists in the data. -/
def entryOk (e : SourceEntry) : Bool :=
  match e.data, e.ref_column with
  | some d, some rc => (d.cols.lookup rc).isSome
  | _, _ => false

/-- Well-formedness of one `SourceDict` entry together with the join's
overlap check: keys present, the reference column existing in the data, and
the channel's name not colliding with an already-joined column. -/
def entryJoinOk (seen : List String) (e : SourceEntry) : Bool :=
  match e.data, e.ref_column with
  | some d, some rc => (d.cols.lookup rc).isSome && !seen.contains rc
  | _, _ => false

/-- Success condition of the whole `_prepare_ref_signals` loop, threading
the column names accumulated so far (the earlier sources' names). -/
def sourcesJoinOk : List String → SourceDict → Bool
  | _, [] => true
  | seen, s :: rest => entryJoinOk seen s.2 && sourcesJoinOk (seen ++ [s.1]) rest

/-- Whether the reference source is present in the state with its `timeshift`
key set — the cache condition of `get_sync_params`. -/
def refHasTimeshiftKey (st : SyncState) (ref : String) : Bool :=
  match st.lookup ref with
  | some s => s.timeshiftKey.isSome
  | none => false

instance : DecidableEq (SyncParams × Bool) :=
  fun a b => instDecidableEqProd a b

instance : DecidableEq (SyncState × SyncParams × Bool) :=
  fun a b => instDecidableEqProd a b

/-!  # Theorems -/

/-- Unfolding lemma for `normalize` on a nonempty input. -/
theorem normalize_cons (h : ℚ) (t : List ℚ) :
    normalize (h :: t) =
      (let m := (h :: t).sum / (((h :: t).length : ℕ) : ℚ)
       let xn := (h :: t).map fun v => v - m
       let M := xn.foldl (fun acc v => max acc |v|) 0
       if M = 0 then .ok (xn.map fun _ => (none : Option ℚ))
       else .ok (xn.map fun v => some (v / M))) := rfl

/-- The `max acc |v|` fold only grows its accumulator, and bounds every
element's absolute value. -/
theorem le_foldlMaxAbs (l : List ℚ) (a : ℚ) :
    a ≤ l.foldl (fun acc v => max acc |v|) a ∧
      ∀ v ∈ l, |v| ≤ l.foldl (fun acc v => max acc |v|) a := by
  induction l generalizing a with
  | nil => exact ⟨le_refl _, by simp⟩
  | cons x xs ih =>
    have hstep := ih (max a |x|)
    refine ⟨?_, ?_⟩
    · simpa only [List.foldl_cons] using le_trans (le_max_left _ _) hstep.1
    · intro v hv
      rcases List.mem_cons.mp hv with rfl | hv
      · simpa only [List.foldl_cons] using le_trans (le_max_right _ _) hstep.1
      · simpa only [List.foldl_cons] using hstep.2 v hv

/-- On an all-zero list the `max acc |v|` fold returns its (zero) start. -/
theorem foldlMaxAbs_eq_zero (l : List ℚ) (h : ∀ v ∈ l, v = 0) :
    l.foldl (fun acc v => max acc |v|) 0 = 0 := by
  induction l with
  | nil => rfl
  | cons x xs ih =>
    have hx : x = 0 := h x (by simp)
    simp only [List.foldl_cons, hx, abs_zero, max_self, max_eq_left (le_refl (0 : ℚ))]
    exact ih fun v hv => h v (by simp [hv])

/-- Sum of a centered list. -/
theorem sum_map_sub (l : List ℚ) (m : ℚ) :
    (l.map fun v => v - m).sum = l.sum - (l.length : ℚ) * m := by
  induction l with
  | nil => simp
  | cons x xs ih =>
    simp only [List.map_cons, List.sum_cons, List.length_cons, ih]
    push_cast
    ring

/-- Sum of a rescaled list. -/
theorem sum_map_div (l : List ℚ) (M : ℚ) :
    (l.map fun v => v / M).sum = l.sum / M := by
  induction l with
  | nil => simp
  | cons x xs ih => simp [ih, add_div]

/-- C4: for every input sequence of length at least 2 that is not all-equal,
normalization succeeds and returns a NaN-free sequence of the same length
with mean zero whose every value lies within `[-1, 1]`. -/
theorem normalize_zero_mean_bounded (x : List ℚ) (hlen : 2 ≤ x.length)
    (hne : ∃ a ∈ x, ∃ b ∈ x, a ≠ b) :
    ∃ y : List ℚ, normalize x = .ok (y.map some) ∧ y.length = x.length ∧
      y.sum / (y.length : ℚ) = 0 ∧ ∀ v ∈ y, -1 ≤ v ∧ v ≤ 1 := by
  obtain ⟨a, ha, b, hb, hab⟩ := hne
  cases x with
  | nil => simp at hlen
  | cons h t =>
    rw [normalize_cons]
    simp only []
    set m := (h :: t).sum / (((h :: t).length : ℕ) : ℚ) with hm
    set xn := (h :: t).map fun v => v - m with hxn
    set M := xn.foldl (fun acc v => max acc |v|) 0 with hM
    have hM0 : 0 ≤ M := (le_foldlMaxAbs xn 0).1
    have hbound : ∀ v ∈ xn, |v| ≤ M := (le_foldlMaxAbs xn 0).2
    have hMne : M ≠ 0 := by
      intro hMz
      have hz : ∀ v ∈ xn, v = 0 := by
        intro v hv
        have h1 : |v| ≤ 0 := hMz ▸ hbound v hv
        have h2 : |v| = 0 := le_antisymm h1 (abs_nonneg v)
        exact abs_eq_zero.mp h2
      have hconst : ∀ c ∈ (h :: t), c = m := by
        intro c hc
        have := hz (c - m) (List.mem_map_of_mem _ hc)
        linarith
      exact hab ((hconst a ha).trans (hconst b hb).symm)
    rw [if_neg hMne]
    refine ⟨xn.map fun v => v / M, ?_, ?_, ?_, ?_⟩
    · simp [List.map_map, Function.comp]
    · simp [hxn]
    · have hsum : xn.sum = 0 := by
        rw [hxn, sum_map_sub, hm]
        have hlenne : (((h :: t).length : ℕ) : ℚ) ≠ 0 :=
          Nat.cast_ne_zero.mpr (by simp)
        field_simp
      rw [sum_map_div, hsum]
      simp
    · intro v hv
      obtain ⟨w, hw, rfl⟩ := List.mem_map.mp hv
      have h1 : |w| ≤ M := hbound w hw
      have hMpos : 0 < M := lt_of_le_of_ne hM0 (Ne.symm hMne)
      have habs : |w / M| ≤ 1 := by
        rw [abs_div, abs_of_pos hMpos]
        exact (div_le_one hMpos).mpr h1
      exact abs_le.mp habs

/-- Witness for C4 at the concrete input `[1, 2, 3]`. -/
theorem normalize_zero_mean_bounded_witness :
    ∃ y : List ℚ, normalize [1, 2, 3] = .ok (y.map some) ∧
      y.length = ([1, 2, 3] : List ℚ).length ∧
      y.sum / (y.length : ℚ) = 0 ∧ ∀ v ∈ y, -1 ≤ v ∧ v ≤ 1 :=
  normalize_zero_mean_bounded [1, 2, 3] (by decide) (by decide)

/-- C5 evidence: on a nonempty all-equal input, `normalize` in
`jointly/helpers.py` returns a value — a list of NaNs from the `0 / 0`
division — instead of raising; the repository's own test
(`tests/test_helpers.py::test_normalize`) expects `ZeroDivisionError` for
`[0, 0]` and `ValueError` for `[1]`, and the spec expects
DegenerateSignalError / DataShapeError. -/
theorem normalize_allequal_returns_value (x : List ℚ) (hne : x ≠ [])
    (hall : ∀ a ∈ x, a = x.headD 0) :
    normalize x = .ok (x.map fun _ => (none : Option ℚ)) := by
  cases x with
  | nil => exact absurd rfl hne
  | cons h t =>
    rw [normalize_cons]
    simp only []
    have hall' : ∀ a ∈ (h :: t), a = h := by simpa using hall
    have hsum : (h :: t).sum = ((h :: t).length : ℚ) * h := by
      rw [List.sum_eq_card_nsmul (h :: t) h hall']
      simp [nsmul_eq_mul]
    have hmean : (h :: t).sum / (((h :: t).length : ℕ) : ℚ) = h := by
      rw [hsum]
      have hln : (((h :: t).length : ℕ) : ℚ) ≠ 0 := Nat.cast_ne_zero.mpr (by simp)
      field_simp
    have hzero : ∀ v ∈ (h :: t).map
        (fun v => v - (h :: t).sum / (((h :: t).length : ℕ) : ℚ)), v = 0 := by
      intro v hv
      obtain ⟨w, hw, rfl⟩ := List.mem_map.mp hv
      rw [hmean, hall' w hw]
      ring
    rw [if_pos (foldlMaxAbs_eq_zero _ hzero)]
    simp [List.map_map, Function.comp_def]

/-- Witness for the C5 evidence at the concrete input `[0, 0]`. -/
theorem normalize_allequal_witness :
    normalize [(0 : ℚ), 0] = .ok [none, none] := by
  have := normalize_allequal_returns_value [(0 : ℚ), 0] (by simp) (by decide)
  simpa using this

/-- C2: for all segment pairs and timeshift pairs, the orchestrator's
stretch-factor computation returns
`(old_length + timeshift.second - timeshift.first) / old_length` and fails
with `StartEqualsEndError` exactly when `old_length = 0`; in particular the
two pinned examples evaluate to `0.5` and `2`. -/
theorem stretch_factor_formula :
    (∀ s1 e1 s2 e2 t1 t2 : ℚ,
      calcStretchFactorStep ⟨some ⟨some s1, some e1⟩, some ⟨some s2, some e2⟩⟩
          ⟨some t1, some t2⟩ =
        if s2 - s1 = 0 then .error .startEqualsEnd
        else .ok ((s2 - s1 + t2 - t1) / (s2 - s1))) ∧
    calcStretchFactorStep ⟨some ⟨some 1, some 3⟩, some ⟨some 11, some 14⟩⟩
        ⟨some 5, some 0⟩ = .ok (1 / 2) ∧
    calcStretchFactorStep ⟨some ⟨some 1, some 3⟩, some ⟨some 11, some 14⟩⟩
        ⟨some 0, some 10⟩ = .ok 2 := by
  refine ⟨?_, by with_unfolding_all decide, by with_unfolding_all decide⟩
  intro s1 e1 s2 e2 t1 t2
  by_cases hz : s2 - s1 = 0 <;>
    simp [calcStretchFactorStep, get_stretch_factor, dictGet, hz, Bind.bind,
      Except.bind]

/-- C10: calling `save_data` with `tables` omitted or `None` fails with an
`AttributeError` from `tables.keys()` before any parameters are computed or
any file is written (the step trace is empty). -/
theorem save_data_none_attribute_error (save_total_table : Bool) :
    save_data none save_total_table = ([], some .attributeError) := rfl

/-!  ## Peak-sequence merging (C6) -/

/-- Appending to the last sequence of a nonempty accumulator. -/
theorem appendToLast_concat (acc : List (List ℕ)) (cur : List ℕ) (p : ℕ) :
    appendToLast (acc ++ [cur]) p = acc ++ [cur ++ [p]] := by
  unfold appendToLast
  rw [List.dropLast_concat]
  congr 1
  rw [List.getLastD_eq_getLast?, List.getLast?_concat]
  rfl

/-- The merge fold with a nonempty accumulator computes `mergeAux`. -/
theorem mergeFold_eq_aux (d : ℚ) (idx : List ℚ) (ps : List ℕ)
    (acc : List (List ℕ)) (cur : List ℕ) (prev : ℕ) :
    (ps.foldl (mergeStep d idx) (acc ++ [cur], some prev)).1 =
      acc ++ mergeAux d idx prev cur ps := by
  induction ps generalizing acc cur prev with
  | nil => simp [mergeAux]
  | cons p ps ih =>
    simp only [List.foldl_cons, mergeStep, mergeAux]
    by_cases hgap : peakTime idx prev + d / 1000 < peakTime idx p
    · rw [if_pos hgap, if_pos hgap]
      have := ih (acc ++ [cur]) [p] p
      simpa [List.append_assoc] using this
    · rw [if_neg hgap, if_neg hgap, appendToLast_concat]
      exact ih acc (cur ++ [p]) p

/-- `mergePeakSequences` on a nonempty peak list is `mergeAux`. -/
theorem mergePeakSequences_cons (d : ℚ) (idx : List ℚ) (p : ℕ) (ps : List ℕ) :
    mergePeakSequences d idx (p :: ps) = mergeAux d idx p [p] ps := by
  unfold mergePeakSequences
  simp only [List.foldl_cons, mergeStep]
  have := mergeFold_eq_aux d idx ps [] [p] p
  simpa using this

/-- Inductive specification of `mergeAux`: it partitions `cur ++ ps` into
nonempty runs whose internal gaps are at most `distance` milliseconds, with
gaps strictly larger than `distance` milliseconds between consecutive runs,
and its first run starts where `cur` starts. -/
theorem mergeAux_spec (d : ℚ) (idx : List ℚ) (ps : List ℕ) (cur : List ℕ)
    (prev : ℕ) (hne : cur ≠ []) (hlast : cur.getLast? = some prev)
    (hchain : cur.Chain' fun a b => peakTime idx b - peakTime idx a ≤ d / 1000) :
    (mergeAux d idx prev cur ps).join = cur ++ ps ∧
    (∀ r ∈ mergeAux d idx prev cur ps, r ≠ [] ∧
      r.Chain' fun a b => peakTime idx b - peakTime idx a ≤ d / 1000) ∧
    (mergeAux d idx prev cur ps).Chain'
      (fun r s => d / 1000 < peakTime idx (s.headD 0) - peakTime idx (r.getLastD 0)) ∧
    (mergeAux d idx prev cur ps).head?.bind (·.head?) = cur.head? := by
  induction ps generalizing cur prev with
  | nil =>
    refine ⟨by simp [mergeAux], ?_, by simp [mergeAux], by simp [mergeAux]⟩
    intro r hr
    simp only [mergeAux, List.mem_singleton] at hr
    exact hr ▸ ⟨hne, hchain⟩
  | cons p ps ih =>
    simp only [mergeAux]
    by_cases hgap : peakTime idx prev + d / 1000 < peakTime idx p
    · rw [if_pos hgap]
      obtain ⟨ihJoin, ihRuns, ihChain, ihHead⟩ :=
        ih [p] p (by simp) (by simp) (by simp)
      refine ⟨?_, ?_, ?_, ?_⟩
      · simp [ihJoin]
      · intro r hr
        rcases List.mem_cons.mp hr with rfl | hr
        · exact ⟨hne, hchain⟩
        · exact ihRuns r hr
      · rw [List.chain'_cons']
        refine ⟨?_, ihChain⟩
        intro b hb
        have hbhead : b.head? = some p := by
          cases hmem : (mergeAux d idx p [p] ps).head? with
          | none => simp [hmem] at hb
          | some fr =>
            simp only [hmem, Option.mem_def, Option.some_inj] at hb
            subst hb
            simpa [hmem] using ihHead
        have hcurlast : cur.getLastD 0 = prev := by
          rw [List.getLastD_eq_getLast?, hlast]
          rfl
        have hbheadD : b.headD 0 = p := by
          rw [List.headD_eq_head?, hbhead]
          rfl
        rw [hcurlast, hbheadD]
        linarith
      · cases cur with
        | nil => exact absurd rfl hne
        | cons c cs => simp
    · rw [if_neg hgap]
      have hlast' : (cur ++ [p]).getLast? = some p := List.getLast?_concat _
      have hchain' : (cur ++ [p]).Chain'
          fun a b => peakTime idx b - peakTime idx a ≤ d / 1000 := by
        rw [List.chain'_append]
        refine ⟨hchain, List.chain'_singleton _, ?_⟩
        intro x hx y hy
        rw [hlast] at hx
        simp only [Option.mem_def, Option.some_inj] at hx
        simp only [List.head?_cons, Option.mem_def, Option.some_inj] at hy
        subst hx; subst hy
        linarith [not_lt.mp hgap]
      obtain ⟨ihJoin, ihRuns, ihChain, ihHead⟩ :=
        ih (cur ++ [p]) p (by simp) hlast' hchain'
      refine ⟨?_, ihRuns, ihChain, ?_⟩
      · rw [ihJoin]
        simp
      · rw [ihHead]
        cases cur with
        | nil => exact absurd rfl hne
        | cons c cs => simp

/-- C6: the peak-merging step partitions the ordered peak list into maximal
runs: the concatenation of the produced sequences equals the input, every
produced sequence is nonempty with adjacent peaks at most `distance`
milliseconds apart, and consecutive sequences are separated by a gap strictly
larger than `distance` milliseconds (timestamps are in seconds, `distance` in
milliseconds as in the source). -/
theorem merge_peak_sequences_partition (d : ℚ) (idx : List ℚ)
    (peaks : List ℕ) :
    (mergePeakSequences d idx peaks).join = peaks ∧
    (∀ r ∈ mergePeakSequences d idx peaks, r ≠ [] ∧
      r.Chain' fun a b => peakTime idx b - peakTime idx a ≤ d / 1000) ∧
    (mergePeakSequences d idx peaks).Chain'
      (fun r s => d / 1000 < peakTime idx (s.headD 0) - peakTime idx (r.getLastD 0)) := by
  cases peaks with
  | nil => exact ⟨rfl, by simp [mergePeakSequences], by simp [mergePeakSequences]⟩
  | cons p ps =>
    rw [mergePeakSequences_cons]
    obtain ⟨hJoin, hRuns, hChain, _⟩ :=
      mergeAux_spec d idx ps [p] p (by simp) (by simp) (by simp)
    exact ⟨hJoin, hRuns, hChain⟩

/-!  ## The applier (C7) -/

/-- A pointwise-identity map leaves a list unchanged. -/
theorem map_eq_self_of_id {l : List ℚ} {f : ℚ → ℚ} (h : ∀ t, f t = t) :
    l.map f = l := by
  rw [show f = fun t => t from funext h, List.map_id']

/-- Stretching with an explicit anchor and a nonzero factor succeeds on a
duplicate-free index and maps every timestamp through the affine stretch. -/
theorem stretch_signals_ok {α : Type} (data : DataTable α) (sf a : ℚ)
    (hsf : sf ≠ 0) (hnd : data.idx.Nodup) :
    stretch_signals data sf (some a) =
      .ok ⟨data.idx.map fun t => (t - a) * sf + a, data.rows⟩ := by
  have hinj : Function.Injective fun t : ℚ => (t - a) * sf + a := by
    intro x y hxy
    simp only [] at hxy
    have hmul : (x - a) * sf = (y - a) * sf := by linarith
    have := mul_right_cancel₀ hsf hmul
    linarith
  unfold stretch_signals
  simp only [Option.getD_some]
  rw [if_pos (hnd.map hinj)]

/-- Closed form of the applier's per-source transformation. -/
theorem applySyncParams_eq {α : Type} (a : ℚ) (data : DataTable α) (sf : ℚ)
    (ts : Option ℚ) (hsf : sf ≠ 0) (hnd : data.idx.Nodup) :
    applySyncParams a data sf ts =
      .ok ⟨data.idx.map fun t => (t - a) * sf + a + ts.getD 0, data.rows⟩ := by
  unfold applySyncParams
  by_cases h1 : sf = 1
  · subst h1
    cases ts with
    | none =>
      simp only [ne_eq, not_true_eq_false, if_false, pure, Except.pure,
        Except.bind, Bind.bind, Option.getD_none]
      rw [map_eq_self_of_id (fun t => by ring)]
    | some v =>
      simp only [ne_eq, not_true_eq_false, if_false, pure, Except.pure,
        Except.bind, Bind.bind, shiftIndex, Option.getD_some]
      rw [show (data.idx.map fun x => x + v) =
          data.idx.map (fun t => (t - a) * 1 + a + v) from
        List.map_congr_left fun t _ => by ring]
  · rw [if_pos h1, stretch_signals_ok data sf a hsf hnd]
    cases ts with
    | none =>
      simp only [Except.bind, Bind.bind, pure, Except.pure, Option.getD_none]
      rw [show (data.idx.map fun t => (t - a) * sf + a) =
          data.idx.map (fun t => (t - a) * sf + a + 0) from
        List.map_congr_left fun t _ => by ring]
    | some v =>
      simp only [Except.bind, Bind.bind, pure, Except.pure, shiftIndex,
        List.map_map, Option.getD_some]
      rw [show ((fun x => x + v) ∘ fun t => (t - a) * sf + a) =
          fun t => (t - a) * sf + a + v from funext fun t => by
        simp [Function.comp]]

/-- C7: for every source table with computed parameters (`stretch_factor ≠ 0`,
duplicate-free index), the applier returns the original rows untouched and
only transforms the index: stretch by `stretch_factor` anchored at the shared
reference-frame minimum (when the factor is not 1 — and identically when it
is 1, since the affine map is then the identity), followed by the optional
shift; a source with `stretch_factor = 1` and no timeshift (the reference) is
returned unmodified; and the applier's anchor is the same expression as
pass 1's stretch anchor. -/
theorem get_synced_data_index_only {α : Type} (rs : Frame) (data : DataTable α)
    (sf : ℚ) (ts : Option ℚ) (hsf : sf ≠ 0) (hnd : data.idx.Nodup) :
    (applySyncParams (applierAnchor rs) data sf ts =
      .ok ⟨data.idx.map fun t =>
        (t - applierAnchor rs) * sf + applierAnchor rs + ts.getD 0, data.rows⟩) ∧
    applySyncParams (applierAnchor rs) data 1 none = .ok data ∧
    applierAnchor rs = stretchAnchor rs := by
  refine ⟨applySyncParams_eq _ data sf ts hsf hnd, ?_, rfl⟩
  rw [applySyncParams_eq _ data 1 none one_ne_zero hnd]
  cases data with
  | mk idx rows =>
    simp only [Option.getD_none]
    rw [show (idx.map fun t =>
        (t - applierAnchor rs) * 1 + applierAnchor rs + 0) = idx from
      map_eq_self_of_id fun t => by ring]

/-- Witness for C7: a concrete two-row table stretched by 3 and shifted
by 5 around anchor 0 keeps its rows and maps its index pointwise. -/
theorem get_synced_data_index_only_witness :
    applySyncParams (applierAnchor ⟨[0], []⟩) ⟨[0, 2], [true, false]⟩ 3 (some 5) =
      .ok ⟨([0, 2] : List ℚ).map fun t =>
        (t - applierAnchor ⟨[0], []⟩) * 3 + applierAnchor ⟨[0], []⟩ +
          (some (5 : ℚ)).getD 0, [true, false]⟩ :=
  (get_synced_data_index_only ⟨[0], []⟩ ⟨[0, 2], [true, false]⟩ 3 (some 5)
    (by norm_num) (by with_unfolding_all decide)).1

/-!  ## Parameter caching (C8) -/

/-- Updating a source only rewrites that source's entry. -/
theorem lookup_updateSource_self (st : SyncState) (name : String)
    (f : SourceParamState → SourceParamState) :
    (updateSource st name f).lookup name = (st.lookup name).map f := by
  induction st with
  | nil => rfl
  | cons e rest ih =>
    obtain ⟨k, v⟩ := e
    show List.lookup name
        ((if k = name then (k, f v) else (k, v)) :: updateSource rest name f) =
      (List.lookup name ((k, v) :: rest)).map f
    by_cases h : k = name
    · subst h
      rw [if_pos rfl]
      simp [List.lookup]
    · rw [if_neg h]
      have hbeq : (name == k) = false := beq_eq_false_iff_ne.mpr (Ne.symm h)
      simp only [List.lookup, hbeq]
      exact ih

/-- After `_calculate_sync_params` sets the reference parameters, the
reference source carries a `timeshift` key. -/
theorem refHasTimeshiftKey_afterUpdate (st : SyncState) (ref : String)
    (r : SourceParamState) (hlook : st.lookup ref = some r) :
    refHasTimeshiftKey
      (updateSource (updateSource st ref fun s => { s with timeshiftKey := some none })
        ref fun s => { s with stretch_factor := some 1 }) ref = true := by
  unfold refHasTimeshiftKey
  rw [lookup_updateSource_self, lookup_updateSource_self, hlook]
  rfl

/-- `_calculate_sync_params` on a state containing the reference source. -/
theorem calculateSyncParams_eq (pass1 pass2 : SyncState → SyncState)
    (ref : String) (st : SyncState) (r : SourceParamState)
    (hlook : st.lookup ref = some r) :
    calculateSyncParams pass1 pass2 ref st =
      .ok (pass2 (pass1 (updateSource
        (updateSource st ref fun s => { s with timeshiftKey := some none })
        ref fun s => { s with stretch_factor := some 1 }))) := by
  unfold calculateSyncParams
  simp [dictGet, hlook, Bind.bind, Except.bind]

/-- `get_sync_params` without the flag is a cache hit when the reference
source already has its `timeshift` key. -/
theorem get_sync_params_cache_hit (pass1 pass2 : SyncState → SyncState)
    (ref : String) (st : SyncState) (r : SourceParamState)
    (hlook : st.lookup ref = some r) (hr : r.timeshiftKey.isSome = true) :
    get_sync_params pass1 pass2 ref false st =
      .ok (st, extractSyncParams st, false) := by
  unfold get_sync_params
  simp [dictGet, hlook, Bind.bind, Except.bind, pure, Except.pure, hr]

/-- `get_sync_params` without the flag recomputes when the `timeshift` key is
still absent. -/
theorem get_sync_params_cache_miss (pass1 pass2 : SyncState → SyncState)
    (ref : String) (st : SyncState) (r : SourceParamState)
    (hlook : st.lookup ref = some r) (hr : r.timeshiftKey.isSome = false) :
    get_sync_params pass1 pass2 ref false st =
      .ok (pass2 (pass1 (updateSource
          (updateSource st ref fun s => { s with timeshiftKey := some none })
          ref fun s => { s with stretch_factor := some 1 })),
        extractSyncParams (pass2 (pass1 (updateSource
          (updateSource st ref fun s => { s with timeshiftKey := some none })
          ref fun s => { s with stretch_factor := some 1 }))), true) := by
  unfold get_sync_params
  simp [dictGet, hlook, Bind.bind, Except.bind, pure, Except.pure, hr,
    calculateSyncParams_eq pass1 pass2 ref st r hlook]

/-- `get_sync_params` with the recalculation flag always runs both passes. -/
theorem get_sync_params_forced (pass1 pass2 : SyncState → SyncState)
    (ref : String) (st : SyncState) (r : SourceParamState)
    (hlook : st.lookup ref = some r) :
    get_sync_params pass1 pass2 ref true st =
      .ok (pass2 (pass1 (updateSource
          (updateSource st ref fun s => { s with timeshiftKey := some none })
          ref fun s => { s with stretch_factor := some 1 })),
        extractSyncParams (pass2 (pass1 (updateSource
          (updateSource st ref fun s => { s with timeshiftKey := some none })
          ref fun s => { s with stretch_factor := some 1 }))), true) := by
  unfold get_sync_params
  simp [Bind.bind, Except.bind, pure, Except.pure,
    calculateSyncParams_eq pass1 pass2 ref st r hlook]

/-- C8: memoization of `get_sync_params`.  For any two passes that preserve
the reference source's `timeshift` key, once a first call (without the
recalculation flag) has returned a parameter mapping, a second call without
the flag returns the identical mapping and the identical state without
running the passes (flag component `false`), while a call with the flag runs
both passes again from scratch on the cached state (flag component `true`). -/
theorem get_sync_params_memoized (pass1 pass2 : SyncState → SyncState)
    (ref : String) (st st1 : SyncState) (prms : SyncParams) (ranFirst : Bool)
    (hp1 : ∀ s, refHasTimeshiftKey s ref = true →
      refHasTimeshiftKey (pass1 s) ref = true)
    (hp2 : ∀ s, refHasTimeshiftKey s ref = true →
      refHasTimeshiftKey (pass2 s) ref = true)
    (hfirst : get_sync_params pass1 pass2 ref false st = .ok (st1, prms, ranFirst)) :
    get_sync_params pass1 pass2 ref false st1 = .ok (st1, prms, false) ∧
    get_sync_params pass1 pass2 ref true st1 =
      .ok (pass2 (pass1 (updateSource
          (updateSource st1 ref fun s => { s with timeshiftKey := some none })
          ref fun s => { s with stretch_factor := some 1 })),
        extractSyncParams (pass2 (pass1 (updateSource
          (updateSource st1 ref fun s => { s with timeshiftKey := some none })
          ref fun s => { s with stretch_factor := some 1 }))), true) := by
  cases hlook : st.lookup ref with
  | none =>
    rw [get_sync_params] at hfirst
    simp [dictGet, hlook, Bind.bind, Except.bind] at hfirst
  | some r =>
    have hkey : refHasTimeshiftKey st1 ref = true ∧ prms = extractSyncParams st1 := by
      by_cases hneeds : r.timeshiftKey.isSome = true
      · rw [get_sync_params_cache_hit pass1 pass2 ref st r hlook hneeds] at hfirst
        simp only [Except.ok.injEq, Prod.mk.injEq] at hfirst
        obtain ⟨h1, h2, _⟩ := hfirst
        refine ⟨?_, ?_⟩
        · rw [← h1]
          unfold refHasTimeshiftKey
          rw [hlook]
          exact hneeds
        · rw [← h1, ← h2]
      · rw [get_sync_params_cache_miss pass1 pass2 ref st r hlook
          (by simpa using hneeds)] at hfirst
        simp only [Except.ok.injEq, Prod.mk.injEq] at hfirst
        obtain ⟨h1, h2, _⟩ := hfirst
        refine ⟨?_, ?_⟩
        · rw [← h1]
          exact hp2 _ (hp1 _ (refHasTimeshiftKey_afterUpdate st ref r hlook))
        · rw [← h1, ← h2]
    obtain ⟨hkey1, hprms⟩ := hkey
    have hlook1 : ∃ r1, st1.lookup ref = some r1 ∧ r1.timeshiftKey.isSome = true := by
      unfold refHasTimeshiftKey at hkey1
      cases h : st1.lookup ref with
      | none => rw [h] at hkey1; exact absurd hkey1 (by simp)
      | some r1 =>
        rw [h] at hkey1
        exact ⟨r1, rfl, hkey1⟩
    obtain ⟨r1, hl1, hr1⟩ := hlook1
    refine ⟨?_, get_sync_params_forced pass1 pass2 ref st1 r1 hl1⟩
    rw [get_sync_params_cache_hit pass1 pass2 ref st1 r1 hl1 hr1, hprms]

/-- Witness for C8 with identity passes on a one-source state whose
parameters are not yet computed. -/
theorem get_sync_params_memoized_witness :
    get_sync_params id id "r" false [("r", ⟨some 1, some none⟩)] =
      .ok ([("r", ⟨some 1, some none⟩)],
        [("r", (some none, some 1))], false) ∧
    get_sync_params id id "r" true [("r", ⟨some 1, some none⟩)] =
      .ok (id (id (updateSource
          (updateSource [("r", ⟨some 1, some none⟩)] "r"
            fun s => { s with timeshiftKey := some none })
          "r" fun s => { s with stretch_factor := some 1 })),
        extractSyncParams (id (id (updateSource
          (updateSource [("r", ⟨some 1, some none⟩)] "r"
            fun s => { s with timeshiftKey := some none })
          "r" fun s => { s with stretch_factor := some 1 }))), true) :=
  get_sync_params_memoized id id "r" [("r", ⟨none, none⟩)]
    [("r", ⟨some 1, some none⟩)] [("r", (some none, some 1))] true
    (fun _ h => h) (fun _ h => h) (by with_unfolding_all decide)

/-!  ## Session construction (C9) -/

/-- One source's reference-channel extraction succeeds exactly when its
`data` / `ref_column` keys exist and the column is present. -/
theorem sourceSignal_isOk (e : SourceEntry) :
    isOkE (sourceSignal e) = entryOk e := by
  cases hd : e.data with
  | none =>
    simp [sourceSignal, entryOk, dictGet, hd, Bind.bind, Except.bind, isOkE]
  | some dat =>
    cases hrc : e.ref_column with
    | none =>
      simp [sourceSignal, entryOk, dictGet, hd, hrc, Bind.bind, Except.bind,
        isOkE]
    | some rc =>
      cases hcol : dat.cols.lookup rc with
      | none =>
        simp [sourceSignal, entryOk, dictGet, hd, hrc, Frame.col, hcol,
          Bind.bind, Except.bind, isOkE]
      | some vals =>
        simp [sourceSignal, entryOk, dictGet, hd, hrc, Frame.col, hcol,
          Bind.bind, Except.bind, isOkE]

/-- The collection loop succeeds exactly when every entry is well-formed and
no reference channel name collides with an earlier source's (renamed)
column. -/
theorem collectSignals_isOk (sources : SourceDict) :
    ∀ seen, isOkE (collectSignals seen sources) = sourcesJoinOk seen sources := by
  induction sources with
  | nil =>
    intro seen
    rfl
  | cons s rest ih =>
    intro seen
    cases hd : s.2.data with
    | none =>
      simp [collectSignals, sourceSignal, sourcesJoinOk, entryJoinOk, dictGet,
        hd, Bind.bind, Except.bind, isOkE]
    | some dat =>
      cases hrc : s.2.ref_column with
      | none =>
        simp [collectSignals, sourceSignal, sourcesJoinOk, entryJoinOk,
          dictGet, hd, hrc, Bind.bind, Except.bind, isOkE]
      | some rc =>
        cases hcol : dat.cols.lookup rc with
        | none =>
          simp [collectSignals, sourceSignal, sourcesJoinOk, entryJoinOk,
            dictGet, hd, hrc, Frame.col, hcol, Bind.bind, Except.bind, isOkE]
        | some vals =>
          by_cases hseen : rc ∈ seen
          · simp [collectSignals, sourceSignal, sourcesJoinOk, entryJoinOk,
              dictGet, hd, hrc, Frame.col, hcol, hseen, Bind.bind,
              Except.bind, isOkE]
          · cases hr : collectSignals (seen ++ [s.1]) rest with
            | error e =>
              have hrest : sourcesJoinOk (seen ++ [s.1]) rest = false := by
                rw [← ih (seen ++ [s.1]), hr]
                rfl
              simp [collectSignals, sourceSignal, sourcesJoinOk, entryJoinOk,
                dictGet, hd, hrc, Frame.col, hcol, hseen, hr, Bind.bind,
                Except.bind, isOkE, hrest]
            | ok more =>
              have hrest : sourcesJoinOk (seen ++ [s.1]) rest = true := by
                rw [← ih (seen ++ [s.1]), hr]
                rfl
              simp [collectSignals, sourceSignal, sourcesJoinOk, entryJoinOk,
                dictGet, hd, hrc, Frame.col, hcol, hseen, hr, Bind.bind,
                Except.bind, isOkE, hrest]

/-- C9 (amended): session construction succeeds exactly when every source
entry carries a `data` table and a `ref_column` present in it whose name
does not equal an earlier source's name (otherwise the outer join raises the
"columns overlap" `ValueError`).  The right-hand side does not mention `r`,
so the reference source name is never consulted and an unknown reference
name is not rejected; an empty mapping also constructs successfully, with a
NaN default sampling frequency. -/
theorem synchronizer_init_validation (sources : SourceDict) (r : String)
    (freq : Option ℚ) :
    isOkE (Synchronizer.init sources r freq) = sourcesJoinOk [] sources := by
  unfold Synchronizer.init prepare_ref_signals
  cases hc : collectSignals [] sources with
  | error e =>
    have hko : sourcesJoinOk [] sources = false := by
      rw [← collectSignals_isOk sources [], hc]
      rfl
    simp [hc, Bind.bind, Except.bind, isOkE, hko]
  | ok sigs =>
    have hall : sourcesJoinOk [] sources = true := by
      rw [← collectSignals_isOk sources [], hc]
      rfl
    simp [hc, Bind.bind, Except.bind, isOkE, hall, pure, Except.pure]

/-- The join's overlap error concretely: a second source whose `ref_column`
equals the first source's name makes construction fail with `ValueError`,
even though both entries are individually well-formed. -/
theorem init_overlap_raises :
    Synchronizer.init
        [("A", ⟨some ⟨[0], [("x", [some 1])]⟩, some "x"⟩),
          ("B", ⟨some ⟨[0], [("A", [some 1])]⟩, some "A"⟩)] "A" (some 1) =
      .error .valueError := by
  with_unfolding_all decide

/-- The empty mapping concretely: construction succeeds without an explicit
sampling frequency, the default being NaN (`np.amax` delegates to the pandas
`.max()`, which returns NaN on the empty aggregation instead of raising). -/
theorem init_empty_mapping_ok :
    Synchronizer.init [] "A" none = .ok ⟨[], "A", ⟨[], []⟩, none⟩ := by
  with_unfolding_all decide

/-- C9 counterexample: a session with one well-formed source `A` and the
reference source name `B` — absent from the mapping — is constructed
successfully (with `A`'s channel normalized onto the union index), refuting
the claim that such a session construction fails. -/
theorem init_accepts_unknown_reference :
    Synchronizer.init
        [("A", ⟨some ⟨[0, 1], [("c", [some 0, some 1])]⟩, some "c"⟩)] "B"
        (some 1) =
      .ok ⟨[("A", ⟨some ⟨[0, 1], [("c", [some 0, some 1])]⟩, some "c"⟩)], "B",
        ⟨[0, 1], [("A", [some (-1), some 1])]⟩, some 1⟩ ∧
    ([("A", (⟨some ⟨[0, 1], [("c", [some 0, some 1])]⟩, some "c"⟩ : SourceEntry))]
        : SourceDict).lookup "B" = none := by
  constructor
  · with_unfolding_all decide
  · with_unfolding_all decide

/-!  ## Window validation in `get_segments` (C3) -/

/-- A column violating the per-window check makes `processColumn` raise
`BadWindowException` naming it. -/
theorem processColumn_badWindow (cfg : ShakeExtractorConfig) (f : Frame)
    (c : String) (vals : List (Option ℚ)) (fT lT : ℚ)
    (hcol : f.cols.lookup c = some vals)
    (hf : firstValidIndex f.idx vals = some fT)
    (hl : lastValidIndex f.idx vals = some lT)
    (hviol : lT - fT < cfg.start_window_length ∨
      lT - fT < cfg.end_window_length) :
    processColumn cfg f c = .error (.badWindow c) := by
  unfold processColumn
  simp [Frame.col, dictGet, hcol, hl, hf, Bind.bind, Except.bind, hviol]

/-- The per-column loop propagates the first `BadWindowException` once all
earlier columns processed successfully. -/
theorem getSegmentsGo_error_at (cfg : ShakeExtractorConfig) (f : Frame)
    (pre : List String) (c : String) (rest : List String)
    (hpre : ∀ c' ∈ pre, ∃ pr, processColumn cfg f c' = .ok pr)
    (hc : processColumn cfg f c = .error (.badWindow c)) :
    getSegmentsGo cfg f (pre ++ c :: rest) = .error (.badWindow c) := by
  induction pre with
  | nil => simp [getSegmentsGo, hc, Bind.bind, Except.bind]
  | cons p ps ih =>
    obtain ⟨pr, hp⟩ := hpre p (by simp)
    have hrec := ih fun c' hc' => hpre c' (by simp [hc'])
    simp [getSegmentsGo, hp, Bind.bind, Except.bind, hrec]

/-- Column lookup lands on the marked entry when no earlier column shares its
name. -/
theorem lookup_append_notin (pre : List (String × List (Option ℚ)))
    (c : String) (vals : List (Option ℚ)) (post : List (String × List (Option ℚ)))
    (hnot : ∀ e ∈ pre, e.1 ≠ c) :
    (pre ++ (c, vals) :: post).lookup c = some vals := by
  induction pre with
  | nil => simp [List.lookup]
  | cons e es ih =>
    have hne : (c == e.1) = false :=
      beq_eq_false_iff_ne.mpr (Ne.symm (hnot e (by simp)))
    simp only [List.cons_append, List.lookup, hne]
    exact ih fun x hx => hnot x (by simp [hx])

/-- C3 (amended): if some column's valid duration is shorter than
`start_window_length` or shorter than `end_window_length` (each window
individually — not their sum), and every column listed before it processes
without error, `get_segments` raises `BadWindowException` naming that
column. -/
theorem get_segments_window_validation (cfg : ShakeExtractorConfig)
    (f : Frame) (pre post : List (String × List (Option ℚ))) (c : String)
    (vals : List (Option ℚ)) (fT lT : ℚ)
    (hcols : f.cols = pre ++ (c, vals) :: post)
    (hnotpre : ∀ e ∈ pre, e.1 ≠ c)
    (hpre : ∀ e ∈ pre, ∃ pr, processColumn cfg f e.1 = .ok pr)
    (hf : firstValidIndex f.idx vals = some fT)
    (hl : lastValidIndex f.idx vals = some lT)
    (hviol : lT - fT < cfg.start_window_length ∨
      lT - fT < cfg.end_window_length) :
    get_segments cfg f = .error (.badWindow c) := by
  have hcol : f.cols.lookup c = some vals := by
    rw [hcols]
    exact lookup_append_notin pre c vals post hnotpre
  have hbad := processColumn_badWindow cfg f c vals fT lT hcol hf hl hviol
  unfold get_segments
  rw [hcols, List.map_append, List.map_cons]
  exact getSegmentsGo_error_at cfg f (pre.map (·.1)) c (post.map (·.1))
    (fun c' hc' => by
      obtain ⟨e, he, rfl⟩ := List.mem_map.mp hc'
      exact hpre e he)
    hbad

/-- Witness for amended C3: a 1-second recording with a 5-second start
window is rejected with `BadWindowException` naming the column. -/
theorem get_segments_window_validation_witness :
    get_segments ⟨5, 1, 1/2, 1500, 1, 1⟩
        ⟨[0, 1], [("A", [some 0, some 1])]⟩ =
      .error (.badWindow "A") :=
  get_segments_window_validation ⟨5, 1, 1/2, 1500, 1, 1⟩
    ⟨[0, 1], [("A", [some 0, some 1])]⟩ [] [] "A" [some 0, some 1] 0 1
    rfl (by simp) (by simp) (by with_unfolding_all decide)
    (by with_unfolding_all decide) (by norm_num)

/-- C3 counterexample: a column whose duration (10 s) is shorter than the
combined windows (6 s + 6 s) but not shorter than either window alone is NOT
rejected — `get_segments` runs to completion and returns segments for it,
refuting the claim that the sum of the window lengths is validated. -/
theorem get_segments_sum_window_counterexample :
    firstValidIndex ([0, 1, 2, 3, 4, 5, 6, 7, 8, 9, 10] : List ℚ)
        [some 0, some 1, some 0, some 0, some 0, some 0, some 0, some 0,
          some 0, some 1, some 0] = some 0 ∧
    lastValidIndex ([0, 1, 2, 3, 4, 5, 6, 7, 8, 9, 10] : List ℚ)
        [some 0, some 1, some 0, some 0, some 0, some 0, some 0, some 0,
          some 0, some 1, some 0] = some 10 ∧
    (10 : ℚ) - 0 <
      (⟨6, 6, 1/2, 1500, 1, 1⟩ : ShakeExtractorConfig).start_window_length +
      (⟨6, 6, 1/2, 1500, 1, 1⟩ : ShakeExtractorConfig).end_window_length ∧
    get_segments ⟨6, 6, 1/2, 1500, 1, 1⟩
        ⟨[0, 1, 2, 3, 4, 5, 6, 7, 8, 9, 10],
          [("A", [some 0, some 1, some 0, some 0, some 0, some 0, some 0,
            some 0, some 0, some 1, some 0])]⟩ =
      .ok [("A", ⟨some ⟨some 0, some 2⟩, some ⟨some 8, some 10⟩⟩)] := by
  refine ⟨by with_unfolding_all decide, by with_unfolding_all decide,
    by norm_num, ?_⟩
  with_unfolding_all decide

/-!  ## pandas nearest lookup versus the spec's tie-breaking (C1)

The source locates the reference segment's start with
`index.get_loc(ref_start, method="nearest")`.  The spec pins ties "toward the
earlier timestamp"; pandas' `_get_nearest_indexer` resolves ties toward the
later position on a monotonically increasing index.  The lemmas below
characterize the later-tie argmin scan and prove the embedded pandas lookup
equal to it on sorted indexes. -/

/-- The later-tie argmin scan over `range n` returns a position of minimal
key that is strictly better than every later position. -/
theorem argminLater_spec (d : ℕ → ℚ) (n : ℕ) (hn : 0 < n) :
    ∃ b, (List.range n).foldl
        (fun acc i =>
          match acc with
          | none => some i
          | some b => if d i ≤ d b then some i else some b) none = some b ∧
      b < n ∧ (∀ i, i < n → d b ≤ d i) ∧ (∀ i, b < i → i < n → d b < d i) := by
  induction n with
  | zero => exact absurd hn (lt_irrefl 0)
  | succ m ih =>
    rw [List.range_succ, List.foldl_append]
    by_cases hm0 : m = 0
    · subst hm0
      refine ⟨0, rfl, Nat.zero_lt_one, ?_, ?_⟩
      · intro i hi
        interval_cases i
        exact le_refl _
      · intro i hbi hin
        omega
    · obtain ⟨b, hb, hbm, hmin, hstrict⟩ := ih (Nat.pos_of_ne_zero hm0)
      rw [hb]
      simp only [List.foldl_cons, List.foldl_nil]
      by_cases hc : d m ≤ d b
      · refine ⟨m, by rw [if_pos hc], Nat.lt_succ_self m, ?_, ?_⟩
        · intro i hi
          rcases Nat.lt_succ_iff_lt_or_eq.mp hi with hi | rfl
          · exact le_trans hc (hmin i hi)
          · exact le_refl _
        · intro i hbi hin
          omega
      · push_neg at hc
        refine ⟨b, by rw [if_neg (not_le.mpr hc)], Nat.lt_succ_of_lt hbm, ?_, ?_⟩
        · intro i hi
          rcases Nat.lt_succ_iff_lt_or_eq.mp hi with hi | rfl
          · exact hmin i hi
          · exact le_of_lt hc
        · intro i hbi hin
          rcases Nat.lt_succ_iff_lt_or_eq.mp hin with hin | rfl
          · exact hstrict i hbi hin
          · exact hc

/-- The later-tie argmin characterization determines the position uniquely. -/
theorem argminLater_unique (d : ℕ → ℚ) (n b1 b2 : ℕ) (h1n : b1 < n)
    (h1min : ∀ i, i < n → d b1 ≤ d i)
    (h1str : ∀ i, b1 < i → i < n → d b1 < d i) (h2n : b2 < n)
    (h2min : ∀ i, i < n → d b2 ≤ d i)
    (h2str : ∀ i, b2 < i → i < n → d b2 < d i) : b1 = b2 := by
  rcases lt_trichotomy b1 b2 with h | h | h
  · exact absurd (h2min b1 h1n) (not_le.mpr (h1str b2 h h2n))
  · exact h
  · exact absurd (h1min b2 h2n) (not_le.mpr (h2str b1 h h1n))

/-- Every position inside the `takeWhile` prefix satisfies the predicate. -/
theorem takeWhile_getD_true (p : ℚ → Bool) (l : List ℚ) (i : ℕ) (dflt : ℚ)
    (h : i < (l.takeWhile p).length) : p (l.getD i dflt) = true := by
  induction l generalizing i with
  | nil => simp [List.takeWhile] at h
  | cons a t ih =>
    by_cases hpa : p a
    · rw [List.takeWhile_cons, if_pos hpa] at h
      cases i with
      | zero => simpa using hpa
      | succ j =>
        simp only [List.length_cons, Nat.succ_lt_succ_iff] at h
        simpa using ih j h
    · rw [List.takeWhile_cons, if_neg hpa] at h
      simp at h

/-- The position just past the `takeWhile` prefix violates the predicate. -/
theorem takeWhile_getD_false (p : ℚ → Bool) (l : List ℚ) (dflt : ℚ)
    (h : (l.takeWhile p).length < l.length) :
    p (l.getD (l.takeWhile p).length dflt) = false := by
  induction l with
  | nil => simp at h
  | cons a t ih =>
    by_cases hpa : p a
    · rw [List.takeWhile_cons, if_pos hpa] at h ⊢
      simp only [List.length_cons, Nat.succ_lt_succ_iff] at h
      simpa using ih h
    · rw [List.takeWhile_cons, if_neg hpa] at h ⊢
      simpa using Bool.of_not_eq_true hpa

/-- The `takeWhile` prefix is no longer than the list. -/
theorem takeWhile_length_le (p : ℚ → Bool) (l : List ℚ) :
    (l.takeWhile p).length ≤ l.length := by
  induction l with
  | nil => simp
  | cons a t ih =>
    by_cases hpa : p a
    · rw [List.takeWhile_cons, if_pos hpa]
      simpa using ih
    · rw [List.takeWhile_cons, if_neg hpa]
      simp

/-- On a strictly increasing index, the embedded pandas nearest lookup equals
the later-tie argmin scan. -/
theorem getLocNearest_eq_tieLater (idx : List ℚ) (key : ℚ)
    (hs : idx.Pairwise (· < ·)) :
    getLocNearest idx key = specNearestTieLater idx key := by
  rcases Nat.eq_zero_or_pos idx.length with hn | hn
  · rw [List.length_eq_zero.mp hn]
    rfl
  set n := idx.length with hndef
  set g : ℕ → ℚ := fun i => idx.getD i 0 with hg
  set d : ℕ → ℚ := fun i => |g i - key| with hd
  have hmono : ∀ i j, i ≤ j → j < n → g i ≤ g j := by
    intro i j hij hj
    rcases Nat.lt_or_ge i j with h | h
    · have hpw := (List.pairwise_iff_getElem.mp hs) i j (lt_trans h hj) hj h
      simp only [hg]
      rw [List.getD_eq_getElem idx 0 (lt_trans h hj), List.getD_eq_getElem idx 0 hj]
      exact le_of_lt hpw
    · rw [le_antisymm hij h]
  have hsmono : ∀ i j, i < j → j < n → g i < g j := by
    intro i j hij hj
    have hpw := (List.pairwise_iff_getElem.mp hs) i j (lt_trans hij hj) hj hij
    simp only [hg]
    rw [List.getD_eq_getElem idx 0 (lt_trans hij hj), List.getD_eq_getElem idx 0 hj]
    exact hpw
  set cLe := (idx.takeWhile fun t => decide (t ≤ key)).length with hcLe
  set cLt := (idx.takeWhile fun t => decide (t < key)).length with hcLt
  have hcLe_le : cLe ≤ n := takeWhile_length_le _ idx
  have hcLt_le : cLt ≤ n := takeWhile_length_le _ idx
  have hLe : ∀ i, i < cLe → g i ≤ key := by
    intro i hi
    have := takeWhile_getD_true (fun t => decide (t ≤ key)) idx i 0 hi
    simpa [hg] using this
  have hLeB : cLe < n → ¬(g cLe ≤ key) := by
    intro hlt
    have := takeWhile_getD_false (fun t => decide (t ≤ key)) idx 0 hlt
    simpa [hg] using this
  have hLt : ∀ i, i < cLt → g i < key := by
    intro i hi
    have := takeWhile_getD_true (fun t => decide (t < key)) idx i 0 hi
    simpa [hg] using this
  have hLtB : cLt < n → ¬(g cLt < key) := by
    intro hlt
    have := takeWhile_getD_false (fun t => decide (t < key)) idx 0 hlt
    simpa [hg] using this
  have hLeGe : ∀ i, cLe ≤ i → i < n → key < g i := by
    intro i hi hin
    exact lt_of_lt_of_le (lt_of_not_le (hLeB (lt_of_le_of_lt hi hin)))
      (hmono cLe i hi hin)
  have hcLtLe : cLt ≤ cLe := by
    by_contra hcon
    push_neg at hcon
    have h1 : g cLe < key := hLt cLe hcon
    have h2 : ¬(g cLe ≤ key) := hLeB (lt_of_lt_of_le hcon hcLt_le)
    exact h2 (le_of_lt h1)
  have hpad : padIndexer idx key = if cLe = 0 then none else some (cLe - 1) := rfl
  have hback : backfillIndexer idx key = if cLt = n then none else some cLt := rfl
  obtain ⟨b, hbfold, hbn, hbmin, hbstrict⟩ := argminLater_spec d n hn
  have hspec : specNearestTieLater idx key = some b := by
    rw [specNearestTieLater, ← hndef]
    exact hbfold
  rw [hspec]
  suffices h : ∃ c, getLocNearest idx key = some c ∧ c < n ∧
      (∀ i, i < n → d c ≤ d i) ∧ (∀ i, c < i → i < n → d c < d i) by
    obtain ⟨c, hc, hcn, hcmin, hcstrict⟩ := h
    rw [hc, argminLater_unique d n c b hcn hcmin hcstrict hbn hbmin hbstrict]
  have habs_lt : ∀ i, i < cLt → d i = key - g i := by
    intro i hi
    simp only [hd]
    rw [abs_of_nonpos (by linarith [hLt i hi])]
    ring
  have habs_le : ∀ i, i < cLe → d i = key - g i := by
    intro i hi
    simp only [hd]
    rw [abs_of_nonpos (by linarith [hLe i hi])]
    ring
  have habs_ge : ∀ i, cLe ≤ i → i < n → d i = g i - key := by
    intro i hi hin
    simp only [hd]
    rw [abs_of_nonneg (by linarith [hLeGe i hi hin])]
  have hgetD : ∀ i, idx.getD i 0 = g i := fun i => rfl
  rcases Nat.lt_or_ge cLt n with hcLtn | hcLtn
  · rcases Nat.eq_zero_or_pos cLe with hcLe0 | hcLe0
    · -- pad is -1: every grid point exceeds key, the first one is nearest
      have hcLt0 : cLt = 0 := by omega
      have hback' : backfillIndexer idx key = some 0 := by
        rw [hback, hcLt0, if_neg (by omega)]
      have hpad' : padIndexer idx key = none := by
        rw [hpad, if_pos hcLe0]
      have hld : ¬(|idx.getD (idx.length - 1) 0 - key| < |idx.getD 0 0 - key|) := by
        rw [not_lt, hgetD, hgetD]
        have h0 : d 0 = g 0 - key := habs_ge 0 (by omega) hn
        have h1 : d (n - 1) = g (n - 1) - key := habs_ge (n - 1) (by omega) (by omega)
        have h2 : g 0 ≤ g (n - 1) := hmono 0 (n - 1) (Nat.zero_le _) (by omega)
        have h3 : d 0 ≤ d (n - 1) := by rw [h0, h1]; linarith
        simp only [hd] at h3
        rw [← hndef]
        exact h3
      refine ⟨0, ?_, hn, ?_, ?_⟩
      · rw [getLocNearest, hback', hpad']
        simp only []
        rw [if_neg hld]
      · intro i hi
        rw [habs_ge 0 (by omega) hn, habs_ge i (by omega) hi]
        linarith [hmono 0 i (Nat.zero_le _) hi]
      · intro i h0i hi
        rw [habs_ge 0 (by omega) hn, habs_ge i (by omega) hi]
        linarith [hsmono 0 i h0i hi]
    · rcases Nat.lt_or_ge cLt cLe with hpresent | habsent
      · -- the key itself is on the grid at position cLt
        have hkey : g cLt = key := by
          have h1 : g cLt ≤ key := hLe cLt hpresent
          have h2 : key ≤ g cLt := le_of_not_lt (hLtB hcLtn)
          exact le_antisymm h1 h2
        have hsucc : cLe = cLt + 1 := by
          rcases Nat.lt_or_ge (cLt + 1) cLe with h | h
          · exfalso
            have h1 : g (cLt + 1) ≤ key := hLe (cLt + 1) h
            have h2 : g cLt < g (cLt + 1) :=
              hsmono cLt (cLt + 1) (Nat.lt_succ_self _) (by omega)
            rw [hkey] at h2
            linarith
          · omega
        have hdr : d cLt = 0 := by
          simp only [hd]
          rw [hkey]
          simp
        have hback' : backfillIndexer idx key = some cLt := by
          rw [hback, if_neg (by omega)]
        have hpad' : padIndexer idx key = some cLt := by
          rw [hpad, if_neg (by omega), hsucc]
          simp
        refine ⟨cLt, ?_, hcLtn, ?_, ?_⟩
        · rw [getLocNearest, hback', hpad']
          simp only []
          rw [if_neg (lt_irrefl _)]
        · intro i hi
          rw [hdr]
          exact abs_nonneg _
        · intro i hci hi
          rw [hdr, habs_ge i (by omega) hi]
          have := hsmono cLt i hci hi
          rw [hkey] at this
          linarith
      · -- the key falls strictly between the pad and backfill positions
        have heq : cLt = cLe := le_antisymm hcLtLe habsent
        have hl : cLe - 1 < cLe := by omega
        have hdl : d (cLe - 1) = key - g (cLe - 1) := habs_le _ hl
        have hdr : d cLe = g cLe - key := habs_ge cLe (le_refl _) (by omega)
        have hmin_left : ∀ i, i < cLe → d (cLe - 1) ≤ d i := by
          intro i hi
          rw [hdl, habs_le i hi]
          linarith [hmono i (cLe - 1) (by omega) (by omega)]
        have hmin_right : ∀ i, cLe ≤ i → i < n → d cLe ≤ d i := by
          intro i hi hin
          rw [hdr, habs_ge i hi hin]
          linarith [hmono cLe i hi hin]
        have hstr_right : ∀ i, cLe < i → i < n → d cLe < d i := by
          intro i hi hin
          rw [hdr, habs_ge i (le_of_lt hi) hin]
          linarith [hsmono cLe i hi hin]
        have hback' : backfillIndexer idx key = some cLt := by
          rw [hback, if_neg (by omega)]
        have hpad' : padIndexer idx key = some (cLe - 1) := by
          rw [hpad, if_neg (by omega)]
        by_cases hcmp : |idx.getD (cLe - 1) 0 - key| < |idx.getD cLt 0 - key|
        · have hcmp' : d (cLe - 1) < d cLe := by
            have h0 : d (cLe - 1) < d cLt := by
              simp only [hd, hg]
              exact hcmp
            rw [heq] at h0
            exact h0
          refine ⟨cLe - 1, ?_, by omega, ?_, ?_⟩
          · rw [getLocNearest, hback', hpad']
            simp only []
            rw [if_pos hcmp]
          · intro i hi
            rcases Nat.lt_or_ge i cLe with h | h
            · exact hmin_left i h
            · exact le_trans (le_of_lt hcmp') (hmin_right i h hi)
          · intro i hci hi
            have h2 : cLe ≤ i := by omega
            exact lt_of_lt_of_le hcmp' (hmin_right i h2 hi)
        · have hcmp' : d cLe ≤ d (cLe - 1) := by
            have h0 : ¬(d (cLe - 1) < d cLt) := by
              simp only [hd, hg]
              exact hcmp
            rw [heq] at h0
            exact le_of_not_lt h0
          refine ⟨cLt, ?_, by omega, ?_, ?_⟩
          · rw [getLocNearest, hback', hpad']
            simp only []
            rw [if_neg hcmp]
          · intro i hi
            rw [heq]
            rcases Nat.lt_or_ge i cLe with h | h
            · exact le_trans hcmp' (hmin_left i h)
            · exact hmin_right i h hi
          · intro i hci hi
            rw [heq]
            rw [heq] at hci
            exact hstr_right i hci hi
  · rcases Nat.eq_zero_or_pos cLe with hcLe0 | hcLe0
    · -- cLt = n with an empty ≤-prefix contradicts a nonempty index
      exfalso
      omega
    · -- backfill is -1: every grid point is below key, the last one is nearest
      have hcLtn' : cLt = n := by omega
      have hback' : backfillIndexer idx key = none := by
        rw [hback, if_pos hcLtn']
      have hpad' : padIndexer idx key = some (cLe - 1) := by
        rw [hpad, if_neg (by omega)]
      have hcLen : cLe = n := by omega
      refine ⟨n - 1, ?_, by omega, ?_, ?_⟩
      · rw [getLocNearest, hback', hpad', hcLen]
      · intro i hi
        rw [habs_lt (n - 1) (by omega), habs_lt i (by omega)]
        linarith [hmono i (n - 1) (by omega) (by omega)]
      · intro i hci hi
        omega

/-- Unpack a successful `get_segment_data` into its dictionary lookups. -/
theorem get_segment_data_parts (f : Frame) (segments : SyncPairs) (col : String)
    (seg : SegName) (a b : ℚ) (data : List (Option ℚ))
    (h : get_segment_data f segments col seg = .ok (a, b, data)) :
    ∃ pr pt, segments.lookup col = some pr ∧ pr.seg seg = some pt ∧
      pt.start = some a ∧ pt.stop = some b := by
  unfold get_segment_data at h
  cases h1 : segments.lookup col with
  | none =>
    rw [h1] at h
    simp [dictGet, Bind.bind, Except.bind] at h
  | some pr =>
    rw [h1] at h
    simp only [dictGet, Bind.bind, Except.bind] at h
    cases h2 : pr.seg seg with
    | none =>
      rw [h2] at h
      simp [dictGet] at h
    | some pt =>
      rw [h2] at h
      simp only [dictGet] at h
      cases h3 : pt.start with
      | none =>
        rw [h3] at h
        simp [dictGet] at h
      | some sv =>
        rw [h3] at h
        simp only [dictGet] at h
        cases h4 : pt.stop with
        | none =>
          rw [h4] at h
          simp [dictGet] at h
        | some ev =>
          rw [h4] at h
          simp only [dictGet] at h
          cases h5 : f.col col with
          | error err =>
            rw [h5] at h
            simp [dictGet] at h
          | ok vals =>
            rw [h5] at h
            simp only [Except.ok.injEq, Prod.mk.injEq] at h
            exact ⟨pr, pt, rfl, h2, by rw [h3, h.1], by rw [h4, h.2.1]⟩

/-- A part check succeeds when the chain of lookups succeeds. -/
theorem verifyPart_ok (segments : SyncPairs) (col : String) (seg : SegName)
    (part : String) (get : SyncPoint → Option ℚ) (pr : SynchronizationPair)
    (pt : SyncPoint) (v : ℚ) (h1 : segments.lookup col = some pr)
    (h2 : pr.seg seg = some pt) (h3 : get pt = some v) :
    verifyPart segments col seg part get = .ok () := by
  simp [verifyPart, h1, h2, h3]

/-- `verify_segments` succeeds when both columns carry complete first and
second synchronization points. -/
theorem verify_segments_ok (ref_col sig_col : String) (segments : SyncPairs)
    (hok : ∀ col ∈ [ref_col, sig_col], ∀ seg ∈ [SegName.first, SegName.second],
      ∃ pr pt sv ev, segments.lookup col = some pr ∧ pr.seg seg = some pt ∧
        pt.start = some sv ∧ pt.stop = some ev) :
    verify_segments [ref_col, sig_col] segments [SegName.first, SegName.second] =
      .ok () := by
  have hstep : ∀ col ∈ [ref_col, sig_col], ∀ seg ∈ [SegName.first, SegName.second],
      verifyPart segments col seg "start" SyncPoint.start = .ok () ∧
      verifyPart segments col seg "end" SyncPoint.stop = .ok () := by
    intro col hc seg hs
    obtain ⟨pr, pt, sv, ev, h1, h2, h3, h4⟩ := hok col hc seg hs
    exact ⟨verifyPart_ok segments col seg "start" SyncPoint.start pr pt sv h1 h2 h3,
      verifyPart_ok segments col seg "end" SyncPoint.stop pr pt ev h1 h2 h4⟩
  have hr1 := hstep ref_col (by simp) SegName.first (by simp)
  have hr2 := hstep ref_col (by simp) SegName.second (by simp)
  have hs1 := hstep sig_col (by simp) SegName.first (by simp)
  have hs2 := hstep sig_col (by simp) SegName.second (by simp)
  simp [verify_segments, List.forM, hr1.1, hr1.2, hr2.1, hr2.2, hs1.1, hs1.2,
    hs2.1, hs2.2, Bind.bind, Except.bind, pure, Except.pure]

/-- C1 (amended, per segment): whenever the spec-side formula with ties
broken toward the LATER timestamp is defined, the code computes exactly it
(the code's extra behaviour — Python wrap-around for a negative position —
lies outside the spec formula's domain). -/
theorem getTimeshiftSegment_tie_later (f : Frame) (ref_col sig_col : String)
    (segments : SyncPairs) (seg : SegName) (t : ℚ)
    (hs : f.idx.Pairwise (· < ·))
    (hspec : specTimeshiftSegmentWith specNearestTieLater f ref_col sig_col
      segments seg = .ok t) :
    getTimeshiftSegment f ref_col sig_col segments seg = .ok t := by
  unfold specTimeshiftSegmentWith at hspec
  unfold getTimeshiftSegment
  cases h1 : get_segment_data f segments ref_col seg with
  | error e =>
    rw [h1] at hspec
    exact absurd hspec (by simp [Bind.bind, Except.bind])
  | ok rtriple =>
    obtain ⟨ref_start, ref_stop, ref_data⟩ := rtriple
    rw [h1] at hspec
    simp only [Bind.bind, Except.bind] at hspec ⊢
    cases h2 : get_segment_data f segments sig_col seg with
    | error e =>
      rw [h2] at hspec
      exact absurd hspec (by simp)
    | ok striple =>
      obtain ⟨sig_start, sig_stop, sig_data⟩ := striple
      rw [h2] at hspec
      simp only [] at hspec ⊢
      cases h3 : npArgmax (correlateFull ref_data sig_data) with
      | error e =>
        rw [h3] at hspec
        exact absurd hspec (by simp)
      | ok am =>
        rw [h3] at hspec
        simp only [] at hspec ⊢
        rw [getLocNearest_eq_tieLater f.idx ref_start hs]
        cases h4 : specNearestTieLater f.idx ref_start with
        | none =>
          rw [h4] at hspec
          exact absurd hspec (by simp [dictGet])
        | some p =>
          rw [h4] at hspec
          simp only [dictGet] at hspec ⊢
          have harith : (p : ℤ) + ((am : ℤ) - (sig_data.length : ℤ) + 1) =
              (p : ℤ) + ((am : ℤ) - ((sig_data.length : ℤ) - 1)) := by ring
          cases h5 : (if 0 ≤ (p : ℤ) + ((am : ℤ) - ((sig_data.length : ℤ) - 1))
              then f.idx.get? ((p : ℤ) + ((am : ℤ) - ((sig_data.length : ℤ) - 1))).toNat
              else none) with
          | none =>
            rw [h5] at hspec
            exact absurd hspec (by simp)
          | some ts =>
            rw [h5] at hspec
            simp only [Except.ok.injEq] at hspec
            by_cases hpos : 0 ≤ (p : ℤ) + ((am : ℤ) - ((sig_data.length : ℤ) - 1))
            · rw [if_pos hpos] at h5
              rw [show pyIndex f.idx ((p : ℤ) + ((am : ℤ) - (sig_data.length : ℤ) + 1)) =
                  some ts from by
                rw [pyIndex, harith, if_pos hpos]
                exact h5]
              simp [hspec]
            · rw [if_neg hpos] at h5
              exact absurd h5 (by simp)

/-- C1 (amended): whenever the spec-side pair formula with ties broken
toward the LATER timestamp is defined for both segments, `get_timeshift_pair`
returns exactly those two per-segment timeshifts. -/
theorem get_timeshift_pair_tie_later (f : Frame) (ref_col sig_col : String)
    (segments : SyncPairs) (q : ℚ × ℚ) (hs : f.idx.Pairwise (· < ·))
    (hspec : specTimeshiftPairWith specNearestTieLater f ref_col sig_col
      segments = .ok q) :
    get_timeshift_pair f ref_col sig_col segments = .ok q := by
  unfold specTimeshiftPairWith at hspec
  cases hq1 : specTimeshiftSegmentWith specNearestTieLater f ref_col sig_col
      segments .first with
  | error e =>
    rw [hq1] at hspec
    exact absurd hspec (by simp [Bind.bind, Except.bind])
  | ok t1 =>
    rw [hq1] at hspec
    simp only [Bind.bind, Except.bind] at hspec
    cases hq2 : specTimeshiftSegmentWith specNearestTieLater f ref_col sig_col
        segments .second with
    | error e =>
      rw [hq2] at hspec
      exact absurd hspec (by simp)
    | ok t2 =>
      rw [hq2] at hspec
      simp only [Except.ok.injEq] at hspec
      have hparts : ∀ seg, ∀ t, specTimeshiftSegmentWith specNearestTieLater
          f ref_col sig_col segments seg = .ok t →
          (∃ x, get_segment_data f segments ref_col seg = .ok x) ∧
          (∃ y, get_segment_data f segments sig_col seg = .ok y) := by
        intro seg t h
        unfold specTimeshiftSegmentWith at h
        cases h1 : get_segment_data f segments ref_col seg with
        | error e =>
          rw [h1] at h
          exact absurd h (by simp [Bind.bind, Except.bind])
        | ok x =>
          obtain ⟨xa, xb, xd⟩ := x
          rw [h1] at h
          simp only [Bind.bind, Except.bind] at h
          cases h2 : get_segment_data f segments sig_col seg with
          | error e =>
            rw [h2] at h
            exact absurd h (by simp)
          | ok y => exact ⟨⟨(xa, xb, xd), rfl⟩, ⟨y, rfl⟩⟩
      have hv : verify_segments [ref_col, sig_col] segments
          [SegName.first, SegName.second] = .ok () := by
        apply verify_segments_ok
        intro col hc seg hsg
        simp only [List.mem_cons, List.mem_singleton, List.not_mem_nil,
          or_false] at hc hsg
        have hget : ∃ z, get_segment_data f segments col seg = .ok z := by
          rcases hsg with rfl | rfl
          · rcases hc with rfl | rfl
            · exact (hparts _ t1 hq1).1
            · exact (hparts _ t1 hq1).2
          · rcases hc with rfl | rfl
            · exact (hparts _ t2 hq2).1
            · exact (hparts _ t2 hq2).2
        obtain ⟨⟨za, zb, zd⟩, hz⟩ := hget
        obtain ⟨pr, pt, hh1, hh2, hh3, hh4⟩ :=
          get_segment_data_parts f segments col seg za zb zd hz
        exact ⟨pr, pt, za, zb, hh1, hh2, hh3, hh4⟩
      unfold get_timeshift_pair
      rw [hv]
      simp only [Bind.bind, Except.bind]
      rw [getTimeshiftSegment_tie_later f ref_col sig_col segments .first t1 hs hq1]
      simp only []
      rw [getTimeshiftSegment_tie_later f ref_col sig_col segments .second t2 hs hq2]
      simp [hspec]

/-- Witness for amended C1: on a concrete 4-point grid the spec formula with
later ties is defined and the code returns the same pair. -/
theorem get_timeshift_pair_tie_later_witness :
    get_timeshift_pair
        ⟨[0, 2, 4, 6], [("r", [some 0, some 1, some 0, some 0]),
          ("s", [some 0, some 1, some 0, some 0])]⟩ "r" "s"
        [("r", ⟨some ⟨some 2, some 4⟩, some ⟨some 2, some 4⟩⟩),
          ("s", ⟨some ⟨some 2, some 4⟩, some ⟨some 2, some 4⟩⟩)] =
      .ok (0, 0) :=
  get_timeshift_pair_tie_later
    ⟨[0, 2, 4, 6], [("r", [some 0, some 1, some 0, some 0]),
      ("s", [some 0, some 1, some 0, some 0])]⟩ "r" "s"
    [("r", ⟨some ⟨some 2, some 4⟩, some ⟨some 2, some 4⟩⟩),
      ("s", ⟨some ⟨some 2, some 4⟩, some ⟨some 2, some 4⟩⟩)] (0, 0)
    (by with_unfolding_all decide) (by with_unfolding_all decide)

/-- C1 counterexample: with the reference segment's start at 1 — exactly
midway between the grid points 0 and 2 — the code resolves the nearest-index
lookup to the LATER grid point (pandas tie-breaking) and returns timeshift 0,
while the spec formula with ties broken toward the EARLIER timestamp returns
-2; the claim's tie-breaking direction contradicts the code. -/
theorem get_timeshift_tie_counterexample :
    getTimeshiftSegment
        ⟨[0, 2, 4, 6], [("r", [some 0, some 1, some 0, some 0]),
          ("s", [some 0, some 1, some 0, some 0])]⟩ "r" "s"
        [("r", ⟨some ⟨some 1, some 4⟩, none⟩),
          ("s", ⟨some ⟨some 2, some 4⟩, none⟩)] .first = .ok 0 ∧
    specTimeshiftSegmentWith specNearestTieEarlier
        ⟨[0, 2, 4, 6], [("r", [some 0, some 1, some 0, some 0]),
          ("s", [some 0, some 1, some 0, some 0])]⟩ "r" "s"
        [("r", ⟨some ⟨some 1, some 4⟩, none⟩),
          ("s", ⟨some ⟨some 2, some 4⟩, none⟩)] .first = .ok (-2) := by
  constructor
  · with_unfolding_all decide
  · with_unfolding_all decide

end Jointly
